import Mathlib

/-!
# Packet modifiers of `dhcpv6/modifiers.go`

A shallow embedding of the nine modifiers of `dhcpv6/modifiers.go`
(`WithClientID` .. `WithRequestedOptions`) together with the collaborators
they call (the packet's option collection and the option variants).

Conventions of the embedding.

* A Go pointer to an option is embedded as the value it points to; a packet is
  embedded as the value of its header and of its option collection.
* A failed unchecked type assertion `x.(*T)` is a run-time panic in Go.  It is
  embedded as the `Except.error` result `Fault.typeAssertion`; a modifier
  therefore has type `DHCPv6 → Except Fault DHCPv6`.
* `modifiers.go` is read with the loop-variable rule of Go before 1.22 (the
  package API it is written against predates that release by years): a
  `for _, v := range xs` loop has ONE variable `v`, so `&v` is the same pointer
  on every iteration.  `WithIANA` stores `&addr`, hence its loop is embedded
  with an explicit cell for `addr` (see `IANALoop`).
-/

set_option linter.dupNamespace false

namespace dhcpv6

/-- A Go value that may be `nil` (an interface value or a pointer). -/
abbrev Nilable (α : Type) : Type := Option α

/-- Modelled from the spec: the option-code type of the "enumeration of protocol
option codes" (declared outside `modifiers.go`); an integer tag. -/
abbrev OptionCode : Type := Nat

/-- Modelled from the spec: the option-code enumeration is declared outside
`modifiers.go`; the values are the DHCPv6 option codes assigned by IANA. -/
def OptionClientID : OptionCode := 1
/-- Modelled from the spec: option code of the server identifier. -/
def OptionServerID : OptionCode := 2
/-- Modelled from the spec: option code of the IANA binding. -/
def OptionIANA : OptionCode := 3
/-- Modelled from the spec: option code of an address binding. -/
def OptionIAAddr : OptionCode := 5
/-- Modelled from the spec: option code of the requested-option list (ORO). -/
def OptionORO : OptionCode := 6
/-- Modelled from the spec: option code of the user-class list. -/
def OptionUserClass : OptionCode := 15
/-- Modelled from the spec: option code of the DNS recursive name server list. -/
def OptionDNSRecursiveNameServer : OptionCode := 23
/-- Modelled from the spec: option code of the domain search list. -/
def OptionDomainSearchList : OptionCode := 24
/-- Modelled from the spec: option code of the bootfile URL. -/
def OptionBootfileURL : OptionCode := 59
/-- Modelled from the spec: option code of the bootfile parameters. -/
def OptionBootfileParam : OptionCode := 60
/-- Modelled from the spec: option code of the client architecture type. -/
def OptionClientArchType : OptionCode := 61

/-- Modelled from the spec: the identifier (DUID) type is declared outside
`modifiers.go`; the spec describes it as "identifier bytes". -/
abbrev Duid : Type := List Nat

/-- The Go type `net.IP`: a byte slice. -/
abbrev IP : Type := List Nat

/-- The Go type `iana.Arch`: an enumerated architecture code. -/
abbrev Arch : Type := Nat

/-- The Go type `rfc1035label.Labels`, built in `WithDomainSearchList` from its
field `Labels`. -/
structure Labels where
  Labels : List String
  deriving DecidableEq, Repr

/-- Modelled from the spec: the client identifier option (`OptClientId`, declared
outside `modifiers.go`). -/
structure OptClientId where
  Cid : Duid

/-- Modelled from the spec: the server identifier option (`OptServerId`, declared
outside `modifiers.go`). -/
structure OptServerId where
  Sid : Duid

/-- Modelled from the spec: the requested-option list (`OptRequestedOption`,
declared outside `modifiers.go`); the zero value has an empty list. -/
structure OptRequestedOption where
  requestedOptions : List OptionCode := []

/-- Modelled from the spec: the user-class list (`OptUserClass`, declared outside
`modifiers.go`). -/
structure OptUserClass where
  UserClasses : List (List Nat)

/-- Modelled from the spec: the architecture-type list (`OptClientArchType`,
declared outside `modifiers.go`). -/
structure OptClientArchType where
  ArchTypes : List Arch

/-- Modelled from the spec: the DNS server list (`OptDNSRecursiveNameServer`,
declared outside `modifiers.go`). -/
structure OptDNSRecursiveNameServer where
  NameServers : List IP

/-- Modelled from the spec: the domain search list (`OptDomainSearchList`,
declared outside `modifiers.go`); the field is a pointer to the labels. -/
structure OptDomainSearchList where
  DomainSearchList : Nilable Labels

/-- Modelled from the spec: an option of a code with no dedicated variant
(`OptionGeneric`, declared outside `modifiers.go`); it carries its code. -/
structure OptionGeneric where
  OptionCode : OptionCode
  OptionData : List Nat

/-- Modelled from the spec: the address binding option (`OptIAAddress`, declared
outside `modifiers.go`), an address lease that may carry sub-options of type
`O`. -/
structure OptIAAddressOf (O : Type) where
  IPv6Addr : IP := []
  PreferredLifetime : Nat := 0
  ValidLifetime : Nat := 0
  Options : List O := []

/-- Modelled from the spec: the IANA option (`OptIANA`, declared outside
`modifiers.go`): identity-association id, T1, T2 and the internal binding list,
whose entries have type `O`.  The zero value `OptIANA{}` has a zero id, zero
timers and an empty list. -/
structure OptIANAOf (O : Type) where
  IaId : List Nat := [0, 0, 0, 0]
  T1 : Nat := 0
  T2 : Nat := 0
  Options : List O := []

/-- Modelled from the spec: the `Option` interface (declared outside
`modifiers.go`).  Each constructor is one concrete Go type behind the
interface. -/
inductive Option where
  | clientId (o : OptClientId)
  | serverId (o : OptServerId)
  | oro (o : OptRequestedOption)
  | userClass (o : OptUserClass)
  | archType (o : OptClientArchType)
  | iana (o : OptIANAOf Option)
  | iaAddr (o : OptIAAddressOf Option)
  | dns (o : OptDNSRecursiveNameServer)
  | domainSearchList (o : OptDomainSearchList)
  | generic (o : OptionGeneric)

/-- The Go struct type `OptIANA`. -/
abbrev OptIANA : Type := OptIANAOf Option

/-- The Go struct type `OptIAAddress`. -/
abbrev OptIAAddress : Type := OptIAAddressOf Option

/-- Modelled from the spec: `Option.Code()`, declared outside `modifiers.go`: the
protocol-defined code of each variant. -/
def Option.Code : Option → OptionCode
  | .clientId _ => OptionClientID
  | .serverId _ => OptionServerID
  | .oro _ => OptionORO
  | .userClass _ => OptionUserClass
  | .archType _ => OptionClientArchType
  | .iana _ => OptionIANA
  | .iaAddr _ => OptionIAAddr
  | .dns _ => OptionDNSRecursiveNameServer
  | .domainSearchList _ => OptionDomainSearchList
  | .generic g => g.OptionCode

/-- Modelled from the spec: `OptRequestedOption.AddRequestedOption`, the "add
requested code" accumulate operation: the code is appended, duplicates
included. -/
def OptRequestedOption.AddRequestedOption (op : OptRequestedOption) (opt : OptionCode) :
    OptRequestedOption :=
  { op with requestedOptions := op.requestedOptions ++ [opt] }

/-- Modelled from the spec: `OptIANA.AddOption`, the "add address binding"
accumulate operation: the entry is appended to the internal binding list. -/
def OptIANAOf.AddOption {O : Type} (op : OptIANAOf O) (opt : O) : OptIANAOf O :=
  { op with Options := op.Options ++ [opt] }

/-- Modelled from the spec: `getOneOption(code) -> Option | absent`, on an option
collection: the first option of the code, `none` (Go `nil`) when absent. -/
def getOption (options : List Option) (code : OptionCode) : Nilable Option :=
  match options with
  | [] => none
  | o :: rest => if o.Code = code then some o else getOption rest code

/-- Modelled from the spec: `addOption(Option)`, "pure append, no replace". -/
def addOption (options : List Option) (option : Option) : List Option :=
  options ++ [option]

/-- Modelled from the spec: `updateOption(Option)`, "replace-by-code, inserting
if absent": the first option of the same code is replaced in place; when there
is none the option is appended. -/
def updateOption (options : List Option) (option : Option) : List Option :=
  match options with
  | [] => addOption [] option
  | o :: rest =>
    if o.Code = option.Code then option :: rest
    else o :: updateOption rest option

/-- Modelled from the spec: the message-shaped packet variant (declared outside
`modifiers.go`). -/
structure DHCPv6Message where
  messageType : Nat
  transactionID : Nat
  options : List Option

/-- Modelled from the spec: the relay-shaped packet variant (declared outside
`modifiers.go`). -/
structure DHCPv6Relay where
  messageType : Nat
  hopCount : Nat
  linkAddr : IP
  peerAddr : IP
  options : List Option

/-- Modelled from the spec: the `DHCPv6` packet interface, a closed set of two
packet shapes. -/
inductive DHCPv6 where
  | Message (m : DHCPv6Message)
  | Relay (r : DHCPv6Relay)

/-- The option collection of a packet. -/
def DHCPv6.options : DHCPv6 → List Option
  | .Message m => m.options
  | .Relay r => r.options

/-- The packet with its option collection replaced. -/
def DHCPv6.setOptions : DHCPv6 → List Option → DHCPv6
  | .Message m, os => .Message { m with options := os }
  | .Relay r, os => .Relay { r with options := os }

/-- Modelled from the spec: `DHCPv6Message.GetOneOption`. -/
def DHCPv6Message.GetOneOption (m : DHCPv6Message) (code : OptionCode) : Nilable Option :=
  getOption m.options code

/-- Modelled from the spec: `DHCPv6Message.UpdateOption`. -/
def DHCPv6Message.UpdateOption (m : DHCPv6Message) (option : Option) : DHCPv6Message :=
  { m with options := updateOption m.options option }

/-- Modelled from the spec: `Packet.getOneOption(code)`. -/
def DHCPv6.GetOneOption (d : DHCPv6) (code : OptionCode) : Nilable Option :=
  getOption d.options code

/-- Modelled from the spec: `Packet.addOption(Option)`. -/
def DHCPv6.AddOption (d : DHCPv6) (option : Option) : DHCPv6 :=
  d.setOptions (addOption d.options option)

/-- Modelled from the spec: `Packet.updateOption(Option)`. -/
def DHCPv6.UpdateOption (d : DHCPv6) (option : Option) : DHCPv6 :=
  d.setOptions (updateOption d.options option)

/-- The run-time fault of a modifier: a failed unchecked type assertion
`x.(*T)`, which panics in Go. -/
inductive Fault where
  | typeAssertion
  deriving DecidableEq, Repr

/-- The Go type `Modifier`, `func(d DHCPv6) DHCPv6`; a panic is the `error`
result. -/
abbrev Modifier : Type := DHCPv6 → Except Fault DHCPv6

/-- The unchecked type assertion `opt.(*OptRequestedOption)`. -/
def Option.assertOptRequestedOption : Option → Except Fault OptRequestedOption
  | .oro o => .ok o
  | _ => .error .typeAssertion

/-- The unchecked type assertion `opt.(*OptIANA)`. -/
def Option.assertOptIANA : Option → Except Fault OptIANA
  | .iana o => .ok o
  | _ => .error .typeAssertion

/-- `WithClientID` (modifiers.go:12). -/
def WithClientID (duid : Duid) : Modifier := fun d =>
  let cid : OptClientId := { Cid := duid }
  let d := d.UpdateOption (.clientId cid)
  .ok d

/-- `WithServerID` (modifiers.go:21). -/
def WithServerID (duid : Duid) : Modifier := fun d =>
  let sid : OptServerId := { Sid := duid }
  let d := d.UpdateOption (.serverId sid)
  .ok d

/-- `WithNetboot` (modifiers.go:30).  The checked assertion
`d.(*DHCPv6Message)` is the match on the packet shape; the diagnostic written
by `log.Printf` is not part of the result. -/
def WithNetboot : Modifier := fun d =>
  match d with
  | .Relay _ => .ok d
  | .Message msg =>
    let opt : Option :=
      match msg.GetOneOption OptionORO with
      | none => .oro {}
      | some o => o
    match opt.assertOptRequestedOption with
    | .error e => .error e
    | .ok oro =>
      let oro := oro.AddRequestedOption OptionBootfileURL
      let oro := oro.AddRequestedOption OptionBootfileParam
      let msg := msg.UpdateOption (.oro oro)
      .ok (.Message msg)

/-- `WithUserClass` (modifiers.go:50). -/
def WithUserClass (uc : List Nat) : Modifier := fun d =>
  let ouc : OptUserClass := { UserClasses := [uc] }
  let d := d.AddOption (.userClass ouc)
  .ok d

/-- `WithArchType` (modifiers.go:60). -/
def WithArchType (at_ : Arch) : Modifier := fun d =>
  let ao : OptClientArchType := { ArchTypes := [at_] }
  let d := d.AddOption (.archType ao)
  .ok d

/-- An entry of the IANA binding list while the loop of `WithIANA` runs: a
pointer to an option the list held before the loop, or the pointer `&addr` to
the loop variable. -/
inductive IANASlot where
  | held (o : Option)
  | addrPtr

/-- The state of the loop `for _, addr := range addrs { iaNa.AddOption(&addr) }`
of `WithIANA`: the loop variable `addr` and the option `iaNa`, whose binding
list holds pointers. -/
structure IANALoop where
  addr : OptIAAddress
  iaNa : OptIANAOf IANASlot

/-- The state before the first iteration: `addr` is a fresh variable and `iaNa`
points to the fetched (or zero-value) option. -/
def IANALoop.init (iaNa : OptIANA) : IANALoop :=
  { addr := {}
    iaNa := { IaId := iaNa.IaId, T1 := iaNa.T1, T2 := iaNa.T2,
              Options := iaNa.Options.map .held } }

/-- One iteration: the element is assigned to `addr`, then
`iaNa.AddOption(&addr)` appends the pointer to the loop variable. -/
def IANALoop.step (s : IANALoop) (a : OptIAAddress) : IANALoop :=
  { addr := a, iaNa := s.iaNa.AddOption .addrPtr }

/-- The option a slot points to once the loop has ended. -/
def IANALoop.deref (s : IANALoop) : IANASlot → Option
  | .held o => o
  | .addrPtr => .iaAddr s.addr

/-- The value of `iaNa` after the loop. -/
def IANALoop.result (s : IANALoop) : OptIANA :=
  { IaId := s.iaNa.IaId, T1 := s.iaNa.T1, T2 := s.iaNa.T2,
    Options := s.iaNa.Options.map s.deref }

/-- `WithIANA` (modifiers.go:70). -/
def WithIANA (addrs : List OptIAAddress) : Modifier := fun d =>
  let opt : Option :=
    match d.GetOneOption OptionIANA with
    | none => .iana {}
    | some o => o
  match opt.assertOptIANA with
  | .error e => .error e
  | .ok iaNa =>
    let s := addrs.foldl IANALoop.step (IANALoop.init iaNa)
    let d := d.UpdateOption (.iana s.result)
    .ok d

/-- `WithDNS` (modifiers.go:86). -/
def WithDNS (dnses : List IP) : Modifier := fun d =>
  let odns : OptDNSRecursiveNameServer := { NameServers := [] ++ dnses }
  let d := d.UpdateOption (.dns odns)
  .ok d

/-- `WithDomainSearchList` (modifiers.go:97). -/
def WithDomainSearchList (searchlist : List String) : Modifier := fun d =>
  let osl : OptDomainSearchList := { DomainSearchList := some { Labels := searchlist } }
  let d := d.UpdateOption (.domainSearchList osl)
  .ok d

/-- `WithRequestedOptions` (modifiers.go:110). -/
def WithRequestedOptions (optionCodes : List OptionCode) : Modifier := fun d =>
  let opt : Option :=
    match d.GetOneOption OptionORO with
    | none => .oro {}
    | some o => o
  match opt.assertOptRequestedOption with
  | .error e => .error e
  | .ok oro =>
    let oro := optionCodes.foldl (fun oro optionCode => oro.AddRequestedOption optionCode) oro
    let d := d.UpdateOption (.oro oro)
    .ok d

/-- The options of a given code held by an option collection, in order. -/
def optionsOfCode (code : OptionCode) (options : List Option) : List Option :=
  options.filter (fun o => decide (o.Code = code))

/-- The packet of the examples: a message with an empty option collection. -/
def emptyMessage : DHCPv6 :=
  .Message { messageType := 1, transactionID := 0, options := [] }

/-- The entries that the loop of `WithIANA` leaves in the binding list for the
arguments `addrs`: one entry per argument, each of them the option that the
loop variable holds after the loop, which is the last argument. -/
def loopBindings (addrs : List OptIAAddress) : List Option :=
  List.replicate addrs.length (.iaAddr (addrs.getLastD {}))

/-- The address binding of the examples with the given address bytes. -/
def exampleAddr (ip : IP) : OptIAAddress :=
  { IPv6Addr := ip, PreferredLifetime := 3600, ValidLifetime := 7200, Options := [] }

/-- The options of every code but the given one, in order. -/
def optionsNotOfCode (code : OptionCode) (options : List Option) : List Option :=
  options.filter (fun o => !decide (o.Code = code))

/-- A message that already holds one user-class option. -/
def userClassMessage : DHCPv6 :=
  .Message { messageType := 1, transactionID := 0,
             options := [.userClass { UserClasses := [[104, 116, 116, 112]] }] }

/-- A message that already holds one architecture-type option. -/
def archTypeMessage : DHCPv6 :=
  .Message { messageType := 1, transactionID := 0,
             options := [.archType { ArchTypes := [7] }] }

/-- A relay packet holding one requested-option list. -/
def exampleRelay : DHCPv6 :=
  .Relay { messageType := 12, hopCount := 0, linkAddr := [], peerAddr := [],
           options := [.oro { requestedOptions := [23] }] }

/-- A message whose option under the ORO code is not a requested-option list. -/
def genericOROMessage : DHCPv6 :=
  .Message { messageType := 1, transactionID := 0,
             options := [.generic { OptionCode := OptionORO, OptionData := [0, 23] }] }

/-- A message whose option under the IANA code is not an IANA option. -/
def genericIANAMessage : DHCPv6 :=
  .Message { messageType := 1, transactionID := 0,
             options := [.generic { OptionCode := OptionIANA, OptionData := [] }] }

/-- A message holding a client identifier, a requested-option list and a
server identifier. -/
def threeOptionMessage : DHCPv6 :=
  .Message { messageType := 1, transactionID := 7,
             options := [.clientId { Cid := [0, 1] }, .oro { requestedOptions := [23] },
                         .serverId { Sid := [0, 2] }] }

/-- A message holding one IANA option with a non-zero id and timers and one
binding. -/
def ianaMessage : DHCPv6 :=
  .Message { messageType := 1, transactionID := 0,
             options := [.iana { IaId := [1, 2, 3, 4], T1 := 100, T2 := 200,
                                 Options := [.iaAddr (exampleAddr [9])] }] }

/-- A call of one of the nine modifiers of `modifiers.go`, with its
parameters. -/
inductive ModifierCall where
  | withClientID (duid : Duid)
  | withServerID (duid : Duid)
  | withNetboot
  | withUserClass (uc : List Nat)
  | withArchType (a : Arch)
  | withIANA (addrs : List OptIAAddress)
  | withDNS (dnses : List IP)
  | withDomainSearchList (searchlist : List String)
  | withRequestedOptions (optionCodes : List OptionCode)

/-- The modifier that a call denotes. -/
def ModifierCall.modifier : ModifierCall → Modifier
  | .withClientID duid => WithClientID duid
  | .withServerID duid => WithServerID duid
  | .withNetboot => WithNetboot
  | .withUserClass uc => WithUserClass uc
  | .withArchType a => WithArchType a
  | .withIANA addrs => WithIANA addrs
  | .withDNS dnses => WithDNS dnses
  | .withDomainSearchList searchlist => WithDomainSearchList searchlist
  | .withRequestedOptions optionCodes => WithRequestedOptions optionCodes

/-- The target option code of a call: the code of the option it writes. -/
def ModifierCall.target : ModifierCall → OptionCode
  | .withClientID _ => OptionClientID
  | .withServerID _ => OptionServerID
  | .withNetboot => OptionORO
  | .withUserClass _ => OptionUserClass
  | .withArchType _ => OptionClientArchType
  | .withIANA _ => OptionIANA
  | .withDNS _ => OptionDNSRecursiveNameServer
  | .withDomainSearchList _ => OptionDomainSearchList
  | .withRequestedOptions _ => OptionORO

/-- The shape of a packet: `true` for the message-shaped variant. -/
def DHCPv6.isMessage : DHCPv6 → Bool
  | .Message _ => true
  | .Relay _ => false

/-- The application of `m1` followed by that of `m2` on its result, as in a
left-to-right fold of modifiers over a packet; a fault stops it. -/
def Modifier.andThen (m1 m2 : Modifier) : Modifier := fun d =>
  match m1 d with
  | .error e => .error e
  | .ok d1 => m2 d1

/-- The left-to-right fold of a sequence of modifier calls over a packet. -/
def applyModifiers : List ModifierCall → Modifier
  | [] => fun d => .ok d
  | m :: ms => m.modifier.andThen (applyModifiers ms)

/-- The singleton option codes of the spec: client-id, server-id, IANA,
requested-option list, DNS servers and domain search list. -/
def singletonCodes : List OptionCode :=
  [OptionClientID, OptionServerID, OptionIANA, OptionORO, OptionDNSRecursiveNameServer,
   OptionDomainSearchList]

/-- The singleton invariant on an option collection: at most one option of
each singleton code. -/
def SingletonInvariant (options : List Option) : Prop :=
  ∀ c ∈ singletonCodes, (optionsOfCode c options).length ≤ 1

/-- An option on which the type assertions of the modifiers succeed: if its
code is the ORO code it is a requested-option list, and if its code is the
IANA code it is an IANA option. -/
def Option.Assertable (o : Option) : Prop :=
  (o.Code = OptionORO → ∃ x, o = .oro x) ∧ (o.Code = OptionIANA → ∃ x, o = .iana x)

/-- The options of a given code in the packet of a result; a fault stays a
fault. -/
def resultOptionsOfCode (code : OptionCode) (r : Except Fault DHCPv6) :
    Except Fault (List Option) :=
  match r with
  | .error e => .error e
  | .ok d => .ok (optionsOfCode code d.options)

/-- A relay packet with an empty option collection. -/
def emptyRelay : DHCPv6 :=
  .Relay { messageType := 12, hopCount := 1, linkAddr := [], peerAddr := [], options := [] }

/-- A sequence of calls that uses every modifier, some of them twice. -/
def exampleCalls : List ModifierCall :=
  [.withClientID [0, 1], .withRequestedOptions [23, 24], .withNetboot, .withUserClass [104],
   .withIANA [exampleAddr [1], exampleAddr [2]], .withServerID [0, 2], .withArchType 7,
   .withDNS [[1, 1, 1, 1]], .withDomainSearchList ["a.example"], .withIANA [exampleAddr [3]],
   .withUserClass [105], .withClientID [0, 3]]

instance decidableSingletonInvariant (options : List Option) :
    Decidable (SingletonInvariant options) :=
  inferInstanceAs (Decidable (∀ c ∈ singletonCodes, (optionsOfCode c options).length ≤ 1))

/-- A message holding two requested-option lists. -/
def twoOROMessage : DHCPv6 :=
  .Message { messageType := 1, transactionID := 0,
             options := [.oro { requestedOptions := [23] }, .oro { requestedOptions := [24] }] }

/-! ## The option collection -/

theorem optionsOfCode_nil (c : OptionCode) : optionsOfCode c [] = [] := rfl

theorem optionsOfCode_cons (c : OptionCode) (o : Option) (os : List Option) :
    optionsOfCode c (o :: os) =
      if o.Code = c then o :: optionsOfCode c os else optionsOfCode c os := by
  unfold optionsOfCode
  by_cases h : o.Code = c <;> simp [List.filter_cons, h]

theorem optionsOfCode_append (c : OptionCode) (os qs : List Option) :
    optionsOfCode c (os ++ qs) = optionsOfCode c os ++ optionsOfCode c qs := by
  simp [optionsOfCode]

theorem getOption_eq_head? (os : List Option) (c : OptionCode) :
    getOption os c = (optionsOfCode c os).head? := by
  induction os with
  | nil => rfl
  | cons o os ih =>
    rw [getOption, optionsOfCode_cons]
    by_cases h : o.Code = c
    · simp [h]
    · simp [h, ih]

theorem optionsOfCode_addOption (c : OptionCode) (os : List Option) (o : Option) :
    optionsOfCode c (addOption os o) =
      optionsOfCode c os ++ (if o.Code = c then [o] else []) := by
  rw [addOption, optionsOfCode_append, optionsOfCode_cons, optionsOfCode_nil]

theorem optionsOfCode_updateOption_same (os : List Option) (o : Option) :
    optionsOfCode o.Code (updateOption os o) = o :: (optionsOfCode o.Code os).tail := by
  induction os with
  | nil => simp [updateOption, addOption, optionsOfCode_cons, optionsOfCode_nil]
  | cons x xs ih =>
    rw [updateOption]
    by_cases h : x.Code = o.Code
    · simp [h, optionsOfCode_cons]
    · simp [h, optionsOfCode_cons, ih]

theorem optionsOfCode_updateOption_other (os : List Option) (o : Option) (c : OptionCode)
    (hc : c ≠ o.Code) :
    optionsOfCode c (updateOption os o) = optionsOfCode c os := by
  induction os with
  | nil =>
    have : ¬ o.Code = c := fun h => hc h.symm
    simp [updateOption, addOption, optionsOfCode_cons, optionsOfCode_nil, this]
  | cons x xs ih =>
    rw [updateOption]
    by_cases h : x.Code = o.Code
    · have h1 : ¬ x.Code = c := fun h2 => hc (h2.symm.trans h)
      have h2 : ¬ o.Code = c := fun h2 => hc h2.symm
      simp [h, optionsOfCode_cons, h1, h2]
    · simp only [h, if_false, optionsOfCode_cons, ih]

theorem optionsOfCode_updateOption_single (os : List Option) (o : Option)
    (h : (optionsOfCode o.Code os).length ≤ 1) :
    optionsOfCode o.Code (updateOption os o) = [o] := by
  rw [optionsOfCode_updateOption_same]
  cases hq : optionsOfCode o.Code os with
  | nil => rfl
  | cons x xs =>
    rw [hq] at h
    cases xs with
    | nil => rfl
    | cons y ys => simp at h

theorem optionsNotOfCode_updateOption (os : List Option) (o : Option) :
    optionsNotOfCode o.Code (updateOption os o) = optionsNotOfCode o.Code os := by
  induction os with
  | nil => simp [updateOption, addOption, optionsNotOfCode]
  | cons x xs ih =>
    rw [updateOption]
    by_cases h : x.Code = o.Code
    · simp [h, optionsNotOfCode]
    · simp only [h, if_false]
      unfold optionsNotOfCode at ih ⊢
      simp [List.filter_cons, h, ih]

theorem options_setOptions (d : DHCPv6) (os : List Option) :
    (d.setOptions os).options = os := by
  cases d <;> rfl

theorem options_UpdateOption (d : DHCPv6) (o : Option) :
    (d.UpdateOption o).options = updateOption d.options o :=
  options_setOptions _ _

theorem options_AddOption (d : DHCPv6) (o : Option) :
    (d.AddOption o).options = addOption d.options o :=
  options_setOptions _ _

/-! ## The requested-option list -/

theorem foldl_AddRequestedOption (cs : List OptionCode) (oro : OptRequestedOption) :
    cs.foldl (fun oro optionCode => oro.AddRequestedOption optionCode) oro =
      { requestedOptions := oro.requestedOptions ++ cs } := by
  induction cs generalizing oro with
  | nil => simp
  | cons c cs ih =>
    rw [List.foldl_cons, ih]
    simp [OptRequestedOption.AddRequestedOption]

/-- The result of `WithRequestedOptions` on a packet without an option of the
ORO code. -/
theorem WithRequestedOptions_absent (cs : List OptionCode) (p : DHCPv6)
    (h : optionsOfCode OptionORO p.options = []) :
    WithRequestedOptions cs p =
      .ok (p.UpdateOption (.oro { requestedOptions := cs })) := by
  have hg : p.GetOneOption OptionORO = none := by
    rw [DHCPv6.GetOneOption, getOption_eq_head?, h]; rfl
  simp [WithRequestedOptions, hg, Option.assertOptRequestedOption, foldl_AddRequestedOption]

/-- The result of `WithRequestedOptions` on a packet whose first option of the
ORO code is a requested-option list. -/
theorem WithRequestedOptions_present (cs : List OptionCode) (p : DHCPv6)
    (o : OptRequestedOption) (rest : List Option)
    (h : optionsOfCode OptionORO p.options = .oro o :: rest) :
    WithRequestedOptions cs p =
      .ok (p.UpdateOption (.oro { requestedOptions := o.requestedOptions ++ cs })) := by
  have hg : p.GetOneOption OptionORO = some (.oro o) := by
    rw [DHCPv6.GetOneOption, getOption_eq_head?, h]; rfl
  simp [WithRequestedOptions, hg, Option.assertOptRequestedOption, foldl_AddRequestedOption]

theorem optionsOfCode_ORO_UpdateOption (p : DHCPv6) (o : OptRequestedOption) :
    optionsOfCode OptionORO (p.UpdateOption (.oro o)).options =
      .oro o :: (optionsOfCode OptionORO p.options).tail := by
  rw [options_UpdateOption]
  exact optionsOfCode_updateOption_same p.options (.oro o)

/-- C1: on a packet with no ORO option (`L = []`) or exactly one ORO option with
code list `L`, `WithRequestedOptions cs` returns a packet with exactly one ORO
option, whose code list is `L ++ cs`; applying `WithRequestedOptions cs2`
next gives the single list `L ++ cs ++ cs2` (codes in the supplied order,
duplicates kept). -/
theorem C1_WithRequestedOptions_appends (p : DHCPv6) (L cs cs2 : List OptionCode)
    (h : (optionsOfCode OptionORO p.options = [] ∧ L = []) ∨
         optionsOfCode OptionORO p.options = [.oro { requestedOptions := L }]) :
    ∃ p1 p2, WithRequestedOptions cs p = .ok p1 ∧
      optionsOfCode OptionORO p1.options = [.oro { requestedOptions := L ++ cs }] ∧
      WithRequestedOptions cs2 p1 = .ok p2 ∧
      optionsOfCode OptionORO p2.options = [.oro { requestedOptions := L ++ cs ++ cs2 }] := by
  have h1 : ∃ p1, WithRequestedOptions cs p = .ok p1 ∧
      optionsOfCode OptionORO p1.options = [.oro { requestedOptions := L ++ cs }] := by
    rcases h with ⟨h0, hL⟩ | h0
    · refine ⟨_, WithRequestedOptions_absent cs p h0, ?_⟩
      rw [optionsOfCode_ORO_UpdateOption, h0, hL]; rfl
    · refine ⟨_, WithRequestedOptions_present cs p _ [] h0, ?_⟩
      rw [optionsOfCode_ORO_UpdateOption, h0]; rfl
  obtain ⟨p1, hp1, ho1⟩ := h1
  refine ⟨p1, _, hp1, ho1, WithRequestedOptions_present cs2 p1 _ [] ho1, ?_⟩
  rw [optionsOfCode_ORO_UpdateOption, ho1]; rfl

/-- C1 at the spec's example: codes `[59, 60]` and then `[60, 61]` on a packet
without ORO give the single list `[59, 60, 60, 61]`. -/
theorem C1_WithRequestedOptions_appends_witness :
    ∃ p1 p2, WithRequestedOptions [59, 60] emptyMessage = .ok p1 ∧
      optionsOfCode OptionORO p1.options = [.oro { requestedOptions := [] ++ [59, 60] }] ∧
      WithRequestedOptions [60, 61] p1 = .ok p2 ∧
      optionsOfCode OptionORO p2.options =
        [.oro { requestedOptions := [] ++ [59, 60] ++ [60, 61] }] :=
  C1_WithRequestedOptions_appends emptyMessage [] [59, 60] [60, 61] (Or.inl ⟨rfl, rfl⟩)

/-! ## The IANA binding list -/

theorem foldl_IANALoop_step (addrs : List OptIAAddress) (s : IANALoop) :
    addrs.foldl IANALoop.step s =
      { addr := addrs.getLastD s.addr
        iaNa := { IaId := s.iaNa.IaId, T1 := s.iaNa.T1, T2 := s.iaNa.T2,
                  Options := s.iaNa.Options ++ List.replicate addrs.length .addrPtr } } := by
  induction addrs generalizing s with
  | nil => simp
  | cons a as ih =>
    rw [List.foldl_cons, ih]
    have hl : as.getLastD a = (a :: as).getLastD s.addr := by
      cases as <;> simp [List.getLastD, List.getLast]
    simp only [IANALoop.step, OptIANAOf.AddOption, List.length_cons, List.replicate_succ,
      List.append_assoc, List.singleton_append, hl]

theorem IANALoop_result (addrs : List OptIAAddress) (iaNa : OptIANA) :
    (addrs.foldl IANALoop.step (IANALoop.init iaNa)).result =
      { IaId := iaNa.IaId, T1 := iaNa.T1, T2 := iaNa.T2,
        Options := iaNa.Options ++ loopBindings addrs } := by
  rw [foldl_IANALoop_step]
  simp [IANALoop.result, IANALoop.init, loopBindings, IANALoop.deref, Function.comp_def]

/-- The result of `WithIANA` on a packet without an option of the IANA code. -/
theorem WithIANA_absent (addrs : List OptIAAddress) (p : DHCPv6)
    (h : optionsOfCode OptionIANA p.options = []) :
    WithIANA addrs p =
      .ok (p.UpdateOption (.iana { Options := loopBindings addrs })) := by
  have hg : p.GetOneOption OptionIANA = none := by
    rw [DHCPv6.GetOneOption, getOption_eq_head?, h]; rfl
  simp [WithIANA, hg, Option.assertOptIANA, IANALoop_result]

/-- The result of `WithIANA` on a packet whose first option of the IANA code is
an IANA option. -/
theorem WithIANA_present (addrs : List OptIAAddress) (p : DHCPv6)
    (o : OptIANA) (rest : List Option)
    (h : optionsOfCode OptionIANA p.options = .iana o :: rest) :
    WithIANA addrs p =
      .ok (p.UpdateOption (.iana { IaId := o.IaId, T1 := o.T1, T2 := o.T2,
                                   Options := o.Options ++ loopBindings addrs })) := by
  have hg : p.GetOneOption OptionIANA = some (.iana o) := by
    rw [DHCPv6.GetOneOption, getOption_eq_head?, h]; rfl
  simp [WithIANA, hg, Option.assertOptIANA, IANALoop_result]

theorem optionsOfCode_IANA_UpdateOption (p : DHCPv6) (o : OptIANA) :
    optionsOfCode OptionIANA (p.UpdateOption (.iana o)).options =
      .iana o :: (optionsOfCode OptionIANA p.options).tail := by
  rw [options_UpdateOption]
  exact optionsOfCode_updateOption_same p.options (.iana o)

/-- On a packet with no IANA option (`B = []`, zero id and timers) or exactly
one IANA option with binding list `B`, `WithIANA addrs` returns a packet with
exactly one IANA option whose binding list is `B` followed by one entry per
argument, every one of them the LAST argument. -/
theorem WithIANA_bindings (p : DHCPv6) (o : OptIANA) (addrs : List OptIAAddress)
    (h : (optionsOfCode OptionIANA p.options = [] ∧ o = {}) ∨
         optionsOfCode OptionIANA p.options = [.iana o]) :
    ∃ p1, WithIANA addrs p = .ok p1 ∧
      optionsOfCode OptionIANA p1.options =
        [.iana { IaId := o.IaId, T1 := o.T1, T2 := o.T2,
                 Options := o.Options ++ loopBindings addrs }] := by
  rcases h with ⟨h0, ho⟩ | h0
  · refine ⟨_, WithIANA_absent addrs p h0, ?_⟩
    rw [optionsOfCode_IANA_UpdateOption, h0, ho]; rfl
  · refine ⟨_, WithIANA_present addrs p o [] h0, ?_⟩
    rw [optionsOfCode_IANA_UpdateOption, h0]; rfl

/-- `WithIANA_bindings` at one binding on an empty message. -/
theorem WithIANA_bindings_witness :
    ∃ p1, WithIANA [exampleAddr [1]] emptyMessage = .ok p1 ∧
      optionsOfCode OptionIANA p1.options =
        [.iana { IaId := [0, 0, 0, 0], T1 := 0, T2 := 0,
                 Options := [] ++ loopBindings [exampleAddr [1]] }] :=
  WithIANA_bindings emptyMessage {} [exampleAddr [1]] (Or.inl ⟨rfl, rfl⟩)

/-- C2 (the code departs from the claim): `WithIANA` with the two bindings
`X = exampleAddr [1]` and `Y = exampleAddr [2]` on an empty message returns a
packet whose single IANA option has the binding list `[Y, Y]`, not `[X, Y]`:
both entries are the pointer to the loop variable, which holds `Y` after the
loop. -/
theorem C2_WithIANA_two_bindings :
    ∃ p1, WithIANA [exampleAddr [1], exampleAddr [2]] emptyMessage = .ok p1 ∧
      optionsOfCode OptionIANA p1.options =
        [.iana { Options := [.iaAddr (exampleAddr [2]), .iaAddr (exampleAddr [2])] }] ∧
      optionsOfCode OptionIANA p1.options ≠
        [.iana { Options := [.iaAddr (exampleAddr [1]), .iaAddr (exampleAddr [2])] }] := by
  refine ⟨_, rfl, rfl, ?_⟩
  intro h
  have h2 : ([.iana { Options := [.iaAddr (exampleAddr [2]), .iaAddr (exampleAddr [2])] }] :
      List Option) =
      [.iana { Options := [.iaAddr (exampleAddr [1]), .iaAddr (exampleAddr [2])] }] := h
  simp [exampleAddr] at h2

/-! ## The full-replace modifiers -/

/-- C3: on a packet with at most one option of the DNS code, `WithDNS ds` returns
a packet with exactly one DNS option, whose server list is `ds`; applying
`WithDNS ds2` next leaves exactly one DNS option, whose list is `ds2` alone. -/
theorem C3_WithDNS_replaces (p : DHCPv6) (ds ds2 : List IP)
    (h : (optionsOfCode OptionDNSRecursiveNameServer p.options).length ≤ 1) :
    ∃ p1 p2, WithDNS ds p = .ok p1 ∧
      optionsOfCode OptionDNSRecursiveNameServer p1.options = [.dns { NameServers := ds }] ∧
      WithDNS ds2 p1 = .ok p2 ∧
      optionsOfCode OptionDNSRecursiveNameServer p2.options = [.dns { NameServers := ds2 }] := by
  have key : ∀ (q : DHCPv6) (xs : List IP),
      (optionsOfCode OptionDNSRecursiveNameServer q.options).length ≤ 1 →
      optionsOfCode OptionDNSRecursiveNameServer
        (q.UpdateOption (.dns { NameServers := [] ++ xs })).options =
        [.dns { NameServers := xs }] := by
    intro q xs hq
    rw [options_UpdateOption]
    exact optionsOfCode_updateOption_single q.options (.dns { NameServers := [] ++ xs }) hq
  have h1 := key p ds h
  refine ⟨_, _, rfl, h1, rfl, key _ ds2 ?_⟩
  rw [h1]; exact Nat.le_refl 1

/-- C3 at the spec's example: `WithDNS [1.1.1.1]` and then `WithDNS [8.8.8.8]`
leave one DNS option that holds `[8.8.8.8]` only. -/
theorem C3_WithDNS_replaces_witness :
    ∃ p1 p2, WithDNS [[1, 1, 1, 1]] emptyMessage = .ok p1 ∧
      optionsOfCode OptionDNSRecursiveNameServer p1.options =
        [.dns { NameServers := [[1, 1, 1, 1]] }] ∧
      WithDNS [[8, 8, 8, 8]] p1 = .ok p2 ∧
      optionsOfCode OptionDNSRecursiveNameServer p2.options =
        [.dns { NameServers := [[8, 8, 8, 8]] }] :=
  C3_WithDNS_replaces emptyMessage [[1, 1, 1, 1]] [[8, 8, 8, 8]] (by decide)

/-- C4: on a packet with at most one option of the client-identifier code,
`WithClientID d1` followed by `WithClientID d2` returns a packet with exactly
one client-identifier option, whose value is `d2`. -/
theorem C4_WithClientID_twice (p : DHCPv6) (d1 d2 : Duid)
    (h : (optionsOfCode OptionClientID p.options).length ≤ 1) :
    ∃ p1 p2, WithClientID d1 p = .ok p1 ∧ WithClientID d2 p1 = .ok p2 ∧
      optionsOfCode OptionClientID p2.options = [.clientId { Cid := d2 }] := by
  have key : ∀ (q : DHCPv6) (d : Duid),
      (optionsOfCode OptionClientID q.options).length ≤ 1 →
      optionsOfCode OptionClientID (q.UpdateOption (.clientId { Cid := d })).options =
        [.clientId { Cid := d }] := by
    intro q d hq
    rw [options_UpdateOption]
    exact optionsOfCode_updateOption_single q.options (.clientId { Cid := d }) hq
  refine ⟨_, _, rfl, rfl, key _ d2 ?_⟩
  rw [key p d1 h]; exact Nat.le_refl 1

/-- C4 at two different identifiers on an empty message: the second one stays. -/
theorem C4_WithClientID_twice_witness :
    ∃ p1 p2, WithClientID [0, 1, 2] emptyMessage = .ok p1 ∧
      WithClientID [0, 3, 4] p1 = .ok p2 ∧
      optionsOfCode OptionClientID p2.options = [.clientId { Cid := [0, 3, 4] }] :=
  C4_WithClientID_twice emptyMessage [0, 1, 2] [0, 3, 4] (by decide)

/-! ## The appending modifiers -/

/-- C5 as stated fails: on a message that holds one user-class option,
`WithUserClass [105]` returns a packet with two user-class options, the prior
one first; the result is not the single option `[[105]]`. -/
theorem C5_WithUserClass_keeps_prior :
    ∃ p1, WithUserClass [105] userClassMessage = .ok p1 ∧
      optionsOfCode OptionUserClass p1.options =
        [.userClass { UserClasses := [[104, 116, 116, 112]] },
         .userClass { UserClasses := [[105]] }] ∧
      optionsOfCode OptionUserClass p1.options ≠ [.userClass { UserClasses := [[105]] }] := by
  refine ⟨_, rfl, rfl, ?_⟩
  intro h
  exact absurd (congrArg List.length h) (by decide)

/-- C5 amended: for every packet, `WithUserClass uc` returns the packet with one
new user-class option of class list `[uc]` appended at the end of the option
collection; every prior option is kept, so the user-class options of the
result are the prior ones followed by the new one. -/
theorem C5_WithUserClass_appends (p : DHCPv6) (uc : List Nat) :
    ∃ p1, WithUserClass uc p = .ok p1 ∧
      p1.options = p.options ++ [.userClass { UserClasses := [uc] }] ∧
      optionsOfCode OptionUserClass p1.options =
        optionsOfCode OptionUserClass p.options ++ [.userClass { UserClasses := [uc] }] ∧
      (optionsOfCode OptionUserClass p1.options).length =
        (optionsOfCode OptionUserClass p.options).length + 1 := by
  have ho : (p.AddOption (.userClass { UserClasses := [uc] })).options =
      p.options ++ [.userClass { UserClasses := [uc] }] := options_AddOption _ _
  have hc : optionsOfCode OptionUserClass (p.AddOption (.userClass { UserClasses := [uc] })).options =
      optionsOfCode OptionUserClass p.options ++ [.userClass { UserClasses := [uc] }] := by
    rw [ho, optionsOfCode_append]; rfl
  refine ⟨_, rfl, ho, hc, ?_⟩
  rw [hc]; simp

/-- C6 as stated fails: on a message that holds one architecture-type option,
`WithArchType 9` returns a packet with two architecture-type options, the
prior one first; the result is not the single option `[9]`. -/
theorem C6_WithArchType_keeps_prior :
    ∃ p1, WithArchType 9 archTypeMessage = .ok p1 ∧
      optionsOfCode OptionClientArchType p1.options =
        [.archType { ArchTypes := [7] }, .archType { ArchTypes := [9] }] ∧
      optionsOfCode OptionClientArchType p1.options ≠ [.archType { ArchTypes := [9] }] := by
  refine ⟨_, rfl, rfl, ?_⟩
  intro h
  exact absurd (congrArg List.length h) (by decide)

/-- C6 amended: for every packet, `WithArchType a` returns the packet with one
new architecture-type option of list `[a]` appended at the end of the option
collection; every prior option is kept, so the architecture-type options of
the result are the prior ones followed by the new one. -/
theorem C6_WithArchType_appends (p : DHCPv6) (a : Arch) :
    ∃ p1, WithArchType a p = .ok p1 ∧
      p1.options = p.options ++ [.archType { ArchTypes := [a] }] ∧
      optionsOfCode OptionClientArchType p1.options =
        optionsOfCode OptionClientArchType p.options ++ [.archType { ArchTypes := [a] }] ∧
      (optionsOfCode OptionClientArchType p1.options).length =
        (optionsOfCode OptionClientArchType p.options).length + 1 := by
  have ho : (p.AddOption (.archType { ArchTypes := [a] })).options =
      p.options ++ [.archType { ArchTypes := [a] }] := options_AddOption _ _
  have hc : optionsOfCode OptionClientArchType (p.AddOption (.archType { ArchTypes := [a] })).options =
      optionsOfCode OptionClientArchType p.options ++ [.archType { ArchTypes := [a] }] := by
    rw [ho, optionsOfCode_append]; rfl
  refine ⟨_, rfl, ho, hc, ?_⟩
  rw [hc]; simp

/-! ## Netboot -/

/-- C7: on a packet that is not message-shaped, `WithNetboot` returns the packet
itself, option collection included, and raises no fault. -/
theorem C7_WithNetboot_not_message (p : DHCPv6) (h : ∀ m, p ≠ .Message m) :
    WithNetboot p = .ok p ∧
      ∀ p1, WithNetboot p = .ok p1 → p1.options = p.options := by
  cases p with
  | Message m => exact absurd rfl (h m)
  | Relay r =>
    refine ⟨rfl, ?_⟩
    intro p1 h1
    have : p1 = .Relay r := by
      have h2 : (Except.ok (DHCPv6.Relay r) : Except Fault DHCPv6) = .ok p1 := h1
      injection h2 with h3
      exact h3.symm
    rw [this]

/-- C7 at a relay packet holding one requested-option list. -/
theorem C7_WithNetboot_not_message_witness :
    WithNetboot exampleRelay = .ok exampleRelay ∧
      ∀ p1, WithNetboot exampleRelay = .ok p1 → p1.options = exampleRelay.options :=
  C7_WithNetboot_not_message exampleRelay (by intro m h; cases h)

theorem WithNetboot_eq_WithRequestedOptions (m : DHCPv6Message) :
    WithNetboot (.Message m) =
      WithRequestedOptions [OptionBootfileURL, OptionBootfileParam] (.Message m) := by
  simp only [WithNetboot, WithRequestedOptions, DHCPv6Message.GetOneOption,
    DHCPv6.GetOneOption, DHCPv6.options, List.foldl_cons, List.foldl_nil]
  cases getOption m.options OptionORO with
  | none => rfl
  | some o => cases o <;> rfl

/-- C8 as stated fails: on a message that holds two requested-option lists,
`WithNetboot` returns a packet that still holds two options of the ORO code
(the first with the two bootfile codes appended, the second as it was), not
one. -/
theorem C8_WithNetboot_two_ORO_options :
    ∃ p1, WithNetboot twoOROMessage = .ok p1 ∧
      optionsOfCode OptionORO p1.options =
        [.oro { requestedOptions := [23, OptionBootfileURL, OptionBootfileParam] },
         .oro { requestedOptions := [24] }] ∧
      (optionsOfCode OptionORO p1.options).length ≠ 1 := by
  refine ⟨_, rfl, rfl, ?_⟩
  decide

/-- C8 amended: on every message-shaped packet `WithNetboot` is
`WithRequestedOptions [OptionBootfileURL, OptionBootfileParam]`; when the
packet holds no option of the ORO code (`L = []`) or exactly one, a
requested-option list with code list `L`, the result is a message with one ORO
option, whose list is `L` followed by `OptionBootfileURL` and
`OptionBootfileParam`, and with the same header and the same options of every
other code, in the same order. -/
theorem C8_WithNetboot_refines (m : DHCPv6Message) :
    WithNetboot (.Message m) =
        WithRequestedOptions [OptionBootfileURL, OptionBootfileParam] (.Message m) ∧
      ∀ L : List OptionCode,
        ((optionsOfCode OptionORO m.options = [] ∧ L = []) ∨
          optionsOfCode OptionORO m.options = [.oro { requestedOptions := L }]) →
        ∃ m1, WithNetboot (.Message m) = .ok (.Message m1) ∧
          optionsOfCode OptionORO m1.options =
            [.oro { requestedOptions := L ++ [OptionBootfileURL, OptionBootfileParam] }] ∧
          optionsNotOfCode OptionORO m1.options = optionsNotOfCode OptionORO m.options ∧
          m1.messageType = m.messageType ∧ m1.transactionID = m.transactionID := by
  refine ⟨WithNetboot_eq_WithRequestedOptions m, ?_⟩
  intro L h
  rw [WithNetboot_eq_WithRequestedOptions]
  have hu : ∀ o : OptRequestedOption,
      (DHCPv6.Message m).UpdateOption (.oro o) =
        .Message { m with options := updateOption m.options (.oro o) } := fun _ => rfl
  rcases h with ⟨h0, hL⟩ | h0
  · refine ⟨_, (WithRequestedOptions_absent _ (.Message m) h0).trans
      (congrArg Except.ok (hu _)), ?_, ?_, rfl, rfl⟩
    · have := optionsOfCode_updateOption_same m.options
        (.oro { requestedOptions := [OptionBootfileURL, OptionBootfileParam] })
      rw [hL]
      exact this.trans (by rw [show Option.Code (.oro _) = OptionORO from rfl, h0]; rfl)
    · exact optionsNotOfCode_updateOption m.options (.oro _)
  · refine ⟨_, (WithRequestedOptions_present _ (.Message m) _ [] h0).trans
      (congrArg Except.ok (hu _)), ?_, ?_, rfl, rfl⟩
    · have := optionsOfCode_updateOption_same m.options
        (.oro { requestedOptions := L ++ [OptionBootfileURL, OptionBootfileParam] })
      exact this.trans (by rw [show Option.Code (.oro _) = OptionORO from rfl, h0]; rfl)
    · exact optionsNotOfCode_updateOption m.options (.oro _)

/-- C8 at a message with an empty option collection: the result holds the one
list `[OptionBootfileURL, OptionBootfileParam]`. -/
theorem C8_WithNetboot_refines_witness :
    ∃ m1, WithNetboot (.Message { messageType := 1, transactionID := 0, options := [] }) =
        .ok (.Message m1) ∧
      optionsOfCode OptionORO m1.options =
        [.oro { requestedOptions := [] ++ [OptionBootfileURL, OptionBootfileParam] }] ∧
      optionsNotOfCode OptionORO m1.options = optionsNotOfCode OptionORO [] ∧
      m1.messageType = 1 ∧ m1.transactionID = 0 :=
  (C8_WithNetboot_refines { messageType := 1, transactionID := 0, options := [] }).2 []
    (Or.inl ⟨rfl, rfl⟩)

/-! ## Faults -/

/-- C9 (the code departs from the claim): on a message whose option under the
ORO code is a generic option, `WithRequestedOptions` (even with no codes) and
`WithNetboot` stop at the unchecked assertion `opt.(*OptRequestedOption)`, and
on a message whose option under the IANA code is a generic option `WithIANA`
stops at `opt.(*OptIANA)`: no packet is returned. -/
theorem C9_unchecked_assertion_faults :
    WithRequestedOptions [] genericOROMessage = .error .typeAssertion ∧
      WithNetboot genericOROMessage = .error .typeAssertion ∧
      WithIANA [] genericIANAMessage = .error .typeAssertion :=
  ⟨rfl, rfl, rfl⟩

/-- The six modifiers without a type assertion return a packet on every
packet. -/
theorem modifiers_without_assertion_total (p : DHCPv6) :
    (∀ d, ∃ p1, WithClientID d p = .ok p1) ∧ (∀ d, ∃ p1, WithServerID d p = .ok p1) ∧
      (∀ uc, ∃ p1, WithUserClass uc p = .ok p1) ∧ (∀ a, ∃ p1, WithArchType a p = .ok p1) ∧
      (∀ ds, ∃ p1, WithDNS ds p = .ok p1) ∧
      (∀ sl, ∃ p1, WithDomainSearchList sl p = .ok p1) :=
  ⟨fun _ => ⟨_, rfl⟩, fun _ => ⟨_, rfl⟩, fun _ => ⟨_, rfl⟩, fun _ => ⟨_, rfl⟩,
    fun _ => ⟨_, rfl⟩, fun _ => ⟨_, rfl⟩⟩

/-! ## Frame -/

theorem optionsOfCode_UpdateOption_other (p : DHCPv6) (o : Option) (c : OptionCode)
    (hc : c ≠ o.Code) :
    optionsOfCode c (p.UpdateOption o).options = optionsOfCode c p.options := by
  rw [options_UpdateOption]
  exact optionsOfCode_updateOption_other p.options o c hc

theorem optionsOfCode_AddOption_other (p : DHCPv6) (o : Option) (c : OptionCode)
    (hc : c ≠ o.Code) :
    optionsOfCode c (p.AddOption o).options = optionsOfCode c p.options := by
  have h : ¬ o.Code = c := fun h => hc h.symm
  rw [options_AddOption, optionsOfCode_addOption]
  simp [h]

/-- A packet returned by `WithRequestedOptions` is the argument with a
requested-option list written by `UpdateOption`. -/
theorem WithRequestedOptions_ok (cs : List OptionCode) (p p1 : DHCPv6)
    (h : WithRequestedOptions cs p = .ok p1) :
    ∃ o : OptRequestedOption, p1 = p.UpdateOption (.oro o) := by
  cases hg : p.GetOneOption OptionORO with
  | none =>
    simp only [WithRequestedOptions, hg, Option.assertOptRequestedOption] at h
    injection h with h
    exact ⟨_, h.symm⟩
  | some o =>
    cases o <;> simp only [WithRequestedOptions, hg, Option.assertOptRequestedOption] at h <;>
      first
        | (injection h with h; exact ⟨_, h.symm⟩)
        | cases h

/-- A packet returned by `WithIANA` is the argument with an IANA option written
by `UpdateOption`. -/
theorem WithIANA_ok (addrs : List OptIAAddress) (p p1 : DHCPv6)
    (h : WithIANA addrs p = .ok p1) :
    ∃ o : OptIANA, p1 = p.UpdateOption (.iana o) := by
  cases hg : p.GetOneOption OptionIANA with
  | none =>
    simp only [WithIANA, hg, Option.assertOptIANA] at h
    injection h with h
    exact ⟨_, h.symm⟩
  | some o =>
    cases o <;> simp only [WithIANA, hg, Option.assertOptIANA] at h <;>
      first
        | (injection h with h; exact ⟨_, h.symm⟩)
        | cases h

/-- A packet returned by `WithNetboot` is the argument itself or the argument
with a requested-option list written by `UpdateOption`. -/
theorem WithNetboot_ok (p p1 : DHCPv6) (h : WithNetboot p = .ok p1) :
    p1 = p ∨ ∃ o : OptRequestedOption, p1 = p.UpdateOption (.oro o) := by
  cases p with
  | Relay r =>
    left
    have h2 : (Except.ok (DHCPv6.Relay r) : Except Fault DHCPv6) = .ok p1 := h
    injection h2 with h3
    exact h3.symm
  | Message m =>
    right
    rw [WithNetboot_eq_WithRequestedOptions] at h
    exact WithRequestedOptions_ok _ _ _ h

/-- C10: no modifier changes the options of a code other than its target code.
For every packet `p` and every code `c'`: each of the six modifiers without a
type assertion returns a packet whose options of code `c'` are those of `p`,
in the same order, when `c'` is not its target code; and every packet that
`WithNetboot`, `WithIANA` or `WithRequestedOptions` returns has the options of
code `c'` of `p`, in the same order, when `c'` is not the ORO (respectively
IANA) code. -/
theorem C10_modifiers_frame (p : DHCPv6) (c' : OptionCode) :
    (∀ d, c' ≠ OptionClientID → ∃ p1, WithClientID d p = .ok p1 ∧
        optionsOfCode c' p1.options = optionsOfCode c' p.options) ∧
    (∀ d, c' ≠ OptionServerID → ∃ p1, WithServerID d p = .ok p1 ∧
        optionsOfCode c' p1.options = optionsOfCode c' p.options) ∧
    (∀ uc, c' ≠ OptionUserClass → ∃ p1, WithUserClass uc p = .ok p1 ∧
        optionsOfCode c' p1.options = optionsOfCode c' p.options) ∧
    (∀ a, c' ≠ OptionClientArchType → ∃ p1, WithArchType a p = .ok p1 ∧
        optionsOfCode c' p1.options = optionsOfCode c' p.options) ∧
    (∀ ds, c' ≠ OptionDNSRecursiveNameServer → ∃ p1, WithDNS ds p = .ok p1 ∧
        optionsOfCode c' p1.options = optionsOfCode c' p.options) ∧
    (∀ sl, c' ≠ OptionDomainSearchList → ∃ p1, WithDomainSearchList sl p = .ok p1 ∧
        optionsOfCode c' p1.options = optionsOfCode c' p.options) ∧
    (c' ≠ OptionORO → ∀ p1, WithNetboot p = .ok p1 →
        optionsOfCode c' p1.options = optionsOfCode c' p.options) ∧
    (∀ addrs, c' ≠ OptionIANA → ∀ p1, WithIANA addrs p = .ok p1 →
        optionsOfCode c' p1.options = optionsOfCode c' p.options) ∧
    (∀ cs, c' ≠ OptionORO → ∀ p1, WithRequestedOptions cs p = .ok p1 →
        optionsOfCode c' p1.options = optionsOfCode c' p.options) := by
  refine ⟨?_, ?_, ?_, ?_, ?_, ?_, ?_, ?_, ?_⟩
  · intro d hc
    exact ⟨_, rfl, optionsOfCode_UpdateOption_other p _ c' hc⟩
  · intro d hc
    exact ⟨_, rfl, optionsOfCode_UpdateOption_other p _ c' hc⟩
  · intro uc hc
    exact ⟨_, rfl, optionsOfCode_AddOption_other p _ c' hc⟩
  · intro a hc
    exact ⟨_, rfl, optionsOfCode_AddOption_other p _ c' hc⟩
  · intro ds hc
    exact ⟨_, rfl, optionsOfCode_UpdateOption_other p _ c' hc⟩
  · intro sl hc
    exact ⟨_, rfl, optionsOfCode_UpdateOption_other p _ c' hc⟩
  · intro hc p1 h
    rcases WithNetboot_ok p p1 h with h1 | ⟨o, h1⟩
    · rw [h1]
    · rw [h1]; exact optionsOfCode_UpdateOption_other p _ c' hc
  · intro addrs hc p1 h
    obtain ⟨o, h1⟩ := WithIANA_ok addrs p p1 h
    rw [h1]; exact optionsOfCode_UpdateOption_other p _ c' hc
  · intro cs hc p1 h
    obtain ⟨o, h1⟩ := WithRequestedOptions_ok cs p p1 h
    rw [h1]; exact optionsOfCode_UpdateOption_other p _ c' hc

/-- C10 at a message holding a client identifier, a requested-option list and a
server identifier: `WithRequestedOptions [59]` returns a packet with the same
client-identifier options. -/
theorem C10_modifiers_frame_witness :
    ∀ p1, WithRequestedOptions [59] threeOptionMessage = .ok p1 →
      optionsOfCode OptionClientID p1.options =
        optionsOfCode OptionClientID threeOptionMessage.options :=
  (C10_modifiers_frame threeOptionMessage OptionClientID).2.2.2.2.2.2.2.2 [59] (by decide)

/-! ## Server identifier and domain search list -/

/-- C12: on a packet with at most one option of the server-identifier code,
`WithServerID d` returns a packet with exactly one server-identifier option,
whose value is `d`, and with the client-identifier options of the argument
unchanged. -/
theorem C12_WithServerID_replaces (p : DHCPv6) (d : Duid)
    (h : (optionsOfCode OptionServerID p.options).length ≤ 1) :
    ∃ p1, WithServerID d p = .ok p1 ∧
      optionsOfCode OptionServerID p1.options = [.serverId { Sid := d }] ∧
      optionsOfCode OptionClientID p1.options = optionsOfCode OptionClientID p.options := by
  refine ⟨_, rfl, ?_, ?_⟩
  · rw [options_UpdateOption]
    exact optionsOfCode_updateOption_single p.options (.serverId { Sid := d }) h
  · rw [options_UpdateOption]
    exact optionsOfCode_updateOption_other p.options (.serverId { Sid := d }) OptionClientID
      (show OptionClientID ≠ OptionServerID by decide)

/-- C12 at a message holding a client identifier, a requested-option list and a
server identifier. -/
theorem C12_WithServerID_replaces_witness :
    ∃ p1, WithServerID [0, 5] threeOptionMessage = .ok p1 ∧
      optionsOfCode OptionServerID p1.options = [.serverId { Sid := [0, 5] }] ∧
      optionsOfCode OptionClientID p1.options =
        optionsOfCode OptionClientID threeOptionMessage.options :=
  C12_WithServerID_replaces threeOptionMessage [0, 5] (by decide)

/-- C13: on a packet with at most one option of the domain-search-list code,
`WithDomainSearchList s` returns a packet with exactly one domain-search-list
option, whose labels are `s`; applying `WithDomainSearchList s2` next leaves
exactly one, whose labels are `s2` alone. -/
theorem C13_WithDomainSearchList_replaces (p : DHCPv6) (s s2 : List String)
    (h : (optionsOfCode OptionDomainSearchList p.options).length ≤ 1) :
    ∃ p1 p2, WithDomainSearchList s p = .ok p1 ∧
      optionsOfCode OptionDomainSearchList p1.options =
        [.domainSearchList { DomainSearchList := some { Labels := s } }] ∧
      WithDomainSearchList s2 p1 = .ok p2 ∧
      optionsOfCode OptionDomainSearchList p2.options =
        [.domainSearchList { DomainSearchList := some { Labels := s2 } }] := by
  have key : ∀ (q : DHCPv6) (xs : List String),
      (optionsOfCode OptionDomainSearchList q.options).length ≤ 1 →
      optionsOfCode OptionDomainSearchList
        (q.UpdateOption (.domainSearchList { DomainSearchList := some { Labels := xs } })).options =
        [.domainSearchList { DomainSearchList := some { Labels := xs } }] := by
    intro q xs hq
    rw [options_UpdateOption]
    exact optionsOfCode_updateOption_single q.options
      (.domainSearchList { DomainSearchList := some { Labels := xs } }) hq
  have h1 := key p s h
  refine ⟨_, _, rfl, h1, rfl, key _ s2 ?_⟩
  rw [h1]; exact Nat.le_refl 1

/-- C13 at two search lists on an empty message: the second one stays. -/
theorem C13_WithDomainSearchList_replaces_witness :
    ∃ p1 p2, WithDomainSearchList ["a.example", "b.example"] emptyMessage = .ok p1 ∧
      optionsOfCode OptionDomainSearchList p1.options =
        [.domainSearchList { DomainSearchList := some { Labels := ["a.example", "b.example"] } }] ∧
      WithDomainSearchList ["c.example"] p1 = .ok p2 ∧
      optionsOfCode OptionDomainSearchList p2.options =
        [.domainSearchList { DomainSearchList := some { Labels := ["c.example"] } }] :=
  C13_WithDomainSearchList_replaces emptyMessage ["a.example", "b.example"] ["c.example"]
    (by decide)

/-! ## Writing back -/

theorem updateOption_absent (os : List Option) (o : Option)
    (h : optionsOfCode o.Code os = []) : updateOption os o = os ++ [o] := by
  induction os with
  | nil => rfl
  | cons x xs ih =>
    rw [optionsOfCode_cons] at h
    by_cases hx : x.Code = o.Code
    · simp [hx] at h
    · simp only [hx, if_false] at h
      rw [updateOption]
      simp only [hx, if_false, ih h, List.cons_append]

theorem updateOption_first_self (os : List Option) (o : Option)
    (h : getOption os o.Code = some o) : updateOption os o = os := by
  induction os with
  | nil => simp [getOption] at h
  | cons x xs ih =>
    rw [getOption] at h
    rw [updateOption]
    by_cases hx : x.Code = o.Code
    · simp only [hx, if_true] at h ⊢
      injection h with h
      rw [h]
    · simp only [hx, if_false] at h ⊢
      rw [ih h]

theorem getOption_updateOption_same (os : List Option) (o : Option) :
    getOption (updateOption os o) o.Code = some o := by
  rw [getOption_eq_head?, optionsOfCode_updateOption_same]
  rfl

theorem setOptions_options (d : DHCPv6) : d.setOptions d.options = d := by
  cases d <;> rfl

theorem UpdateOption_first_self (p : DHCPv6) (o : Option)
    (h : p.GetOneOption o.Code = some o) : p.UpdateOption o = p := by
  rw [DHCPv6.UpdateOption, updateOption_first_self p.options o h, setOptions_options]

/-- The result of `WithRequestedOptions` when `GetOneOption` finds nothing. -/
theorem WithRequestedOptions_get_none (cs : List OptionCode) (p : DHCPv6)
    (hg : p.GetOneOption OptionORO = none) :
    WithRequestedOptions cs p =
      .ok (p.UpdateOption (.oro { requestedOptions := cs })) := by
  simp [WithRequestedOptions, hg, Option.assertOptRequestedOption, foldl_AddRequestedOption]

/-- The result of `WithRequestedOptions` when `GetOneOption` finds a
requested-option list. -/
theorem WithRequestedOptions_get_oro (cs : List OptionCode) (p : DHCPv6)
    (o : OptRequestedOption) (hg : p.GetOneOption OptionORO = some (.oro o)) :
    WithRequestedOptions cs p =
      .ok (p.UpdateOption (.oro { requestedOptions := o.requestedOptions ++ cs })) := by
  simp [WithRequestedOptions, hg, Option.assertOptRequestedOption, foldl_AddRequestedOption]

/-- The result of `WithIANA` when `GetOneOption` finds nothing. -/
theorem WithIANA_get_none (addrs : List OptIAAddress) (p : DHCPv6)
    (hg : p.GetOneOption OptionIANA = none) :
    WithIANA addrs p =
      .ok (p.UpdateOption (.iana { Options := loopBindings addrs })) := by
  simp [WithIANA, hg, Option.assertOptIANA, IANALoop_result]

/-- The result of `WithIANA` when `GetOneOption` finds an IANA option. -/
theorem WithIANA_get_iana (addrs : List OptIAAddress) (p : DHCPv6)
    (o : OptIANA) (hg : p.GetOneOption OptionIANA = some (.iana o)) :
    WithIANA addrs p =
      .ok (p.UpdateOption (.iana { IaId := o.IaId, T1 := o.T1, T2 := o.T2,
                                   Options := o.Options ++ loopBindings addrs })) := by
  simp [WithIANA, hg, Option.assertOptIANA, IANALoop_result]

theorem GetOneOption_none_iff (p : DHCPv6) (c : OptionCode) :
    p.GetOneOption c = none ↔ optionsOfCode c p.options = [] := by
  rw [DHCPv6.GetOneOption, getOption_eq_head?]
  cases optionsOfCode c p.options <;> simp

/-! ## Empty parameters -/

/-- C17: with no codes, `WithRequestedOptions` appends one requested-option list
with an empty code list to a packet without an option of the ORO code (one
option more), and with no bindings `WithIANA` appends one zero-valued IANA
option with an empty binding list to a packet without an option of the IANA
code; when `GetOneOption` finds a requested-option list (respectively an IANA
option), the application without parameters returns the packet unchanged. -/
theorem C17_empty_parameters (p : DHCPv6) :
    (optionsOfCode OptionORO p.options = [] →
      ∃ p1, WithRequestedOptions [] p = .ok p1 ∧
        p1.options = p.options ++ [.oro { requestedOptions := [] }] ∧
        p1.options.length = p.options.length + 1) ∧
    (optionsOfCode OptionIANA p.options = [] →
      ∃ p1, WithIANA [] p = .ok p1 ∧
        p1.options = p.options ++
          [.iana { IaId := [0, 0, 0, 0], T1 := 0, T2 := 0, Options := [] }] ∧
        p1.options.length = p.options.length + 1) ∧
    (∀ o, p.GetOneOption OptionORO = some (.oro o) → WithRequestedOptions [] p = .ok p) ∧
    (∀ o, p.GetOneOption OptionIANA = some (.iana o) → WithIANA [] p = .ok p) := by
  refine ⟨?_, ?_, ?_, ?_⟩
  · intro h
    have ho : (p.UpdateOption (.oro { requestedOptions := [] })).options =
        p.options ++ [.oro { requestedOptions := [] }] := by
      rw [options_UpdateOption]
      exact updateOption_absent p.options (.oro { requestedOptions := [] }) h
    refine ⟨_, WithRequestedOptions_get_none [] p ((GetOneOption_none_iff p _).2 h), ho, ?_⟩
    rw [ho]; simp
  · intro h
    have ho : (p.UpdateOption (.iana { Options := loopBindings [] })).options =
        p.options ++ [.iana { IaId := [0, 0, 0, 0], T1 := 0, T2 := 0, Options := [] }] := by
      rw [options_UpdateOption]
      exact updateOption_absent p.options (.iana { Options := loopBindings [] }) h
    refine ⟨_, WithIANA_get_none [] p ((GetOneOption_none_iff p _).2 h), ho, ?_⟩
    rw [ho]; simp
  · intro o hg
    rw [WithRequestedOptions_get_oro [] p o hg]
    have : ({ requestedOptions := o.requestedOptions ++ [] } : OptRequestedOption) = o := by
      simp
    rw [this, UpdateOption_first_self p (.oro o) hg]
  · intro o hg
    rw [WithIANA_get_iana [] p o hg]
    have : ({ IaId := o.IaId, T1 := o.T1, T2 := o.T2,
              Options := o.Options ++ loopBindings [] } : OptIANA) = o := by
      simp [loopBindings]
    rw [this, UpdateOption_first_self p (.iana o) hg]

/-- C17 at an empty message (both insertions) and at messages that hold the
target option (both unchanged). -/
theorem C17_empty_parameters_witness :
    (∃ p1, WithRequestedOptions [] emptyMessage = .ok p1 ∧
        p1.options = emptyMessage.options ++ [.oro { requestedOptions := [] }] ∧
        p1.options.length = emptyMessage.options.length + 1) ∧
    (∃ p1, WithIANA [] emptyMessage = .ok p1 ∧
        p1.options = emptyMessage.options ++
          [.iana { IaId := [0, 0, 0, 0], T1 := 0, T2 := 0, Options := [] }] ∧
        p1.options.length = emptyMessage.options.length + 1) ∧
    WithRequestedOptions [] threeOptionMessage = .ok threeOptionMessage ∧
    WithIANA [] ianaMessage = .ok ianaMessage :=
  ⟨(C17_empty_parameters emptyMessage).1 rfl,
   (C17_empty_parameters emptyMessage).2.1 rfl,
   (C17_empty_parameters threeOptionMessage).2.2.1 _ rfl,
   (C17_empty_parameters ianaMessage).2.2.2 _ rfl⟩

/-! ## Identity association -/

/-- C18: when `GetOneOption` finds the IANA option `o`, `WithIANA addrs` returns
a packet whose IANA option has the id, T1 and T2 of `o` and a binding list
that is the one of `o` followed by one entry per argument; when the packet
holds no option of the IANA code, the IANA option of the result has the zero
id, zero T1 and T2 and one binding per argument. -/
theorem C18_WithIANA_keeps_id_and_timers (p : DHCPv6) (addrs : List OptIAAddress) :
    (∀ o, p.GetOneOption OptionIANA = some (.iana o) →
      ∃ p1 o1, WithIANA addrs p = .ok p1 ∧
        p1.GetOneOption OptionIANA = some (.iana o1) ∧
        o1.IaId = o.IaId ∧ o1.T1 = o.T1 ∧ o1.T2 = o.T2 ∧
        ∃ bs, o1.Options = o.Options ++ bs ∧ bs.length = addrs.length) ∧
    (optionsOfCode OptionIANA p.options = [] →
      ∃ p1 o1, WithIANA addrs p = .ok p1 ∧
        p1.GetOneOption OptionIANA = some (.iana o1) ∧
        o1.IaId = [0, 0, 0, 0] ∧ o1.T1 = 0 ∧ o1.T2 = 0 ∧
        o1.Options.length = addrs.length) := by
  have hget : ∀ x : OptIANA, (p.UpdateOption (.iana x)).GetOneOption OptionIANA =
      some (.iana x) := by
    intro x
    rw [DHCPv6.GetOneOption, options_UpdateOption]
    exact getOption_updateOption_same p.options (.iana x)
  constructor
  · intro o hg
    exact ⟨_, _, WithIANA_get_iana addrs p o hg, hget _, rfl, rfl, rfl, loopBindings addrs, rfl,
      by simp [loopBindings]⟩
  · intro h
    exact ⟨_, _, WithIANA_get_none addrs p ((GetOneOption_none_iff p _).2 h), hget _, rfl, rfl,
      rfl, by simp [loopBindings]⟩

/-- C18 at a message whose IANA option has id `[1, 2, 3, 4]`, T1 100 and T2 200,
and at an empty message. -/
theorem C18_WithIANA_keeps_id_and_timers_witness :
    (∃ p1 o1, WithIANA [exampleAddr [1]] ianaMessage = .ok p1 ∧
        p1.GetOneOption OptionIANA = some (.iana o1) ∧
        o1.IaId = [1, 2, 3, 4] ∧ o1.T1 = 100 ∧ o1.T2 = 200 ∧
        ∃ bs, o1.Options = [.iaAddr (exampleAddr [9])] ++ bs ∧ bs.length = 1) ∧
    (∃ p1 o1, WithIANA [exampleAddr [1]] emptyMessage = .ok p1 ∧
        p1.GetOneOption OptionIANA = some (.iana o1) ∧
        o1.IaId = [0, 0, 0, 0] ∧ o1.T1 = 0 ∧ o1.T2 = 0 ∧ o1.Options.length = 1) :=
  ⟨(C18_WithIANA_keeps_id_and_timers ianaMessage [exampleAddr [1]]).1 _ rfl,
   (C18_WithIANA_keeps_id_and_timers emptyMessage [exampleAddr [1]]).2 rfl⟩

/-! ## The shape of a returned packet -/

theorem ok_inj {α : Type} {a b : α} (h : (Except.ok a : Except Fault α) = .ok b) : a = b := by
  injection h

theorem isMessage_setOptions (d : DHCPv6) (os : List Option) :
    (d.setOptions os).isMessage = d.isMessage := by
  cases d <;> rfl

theorem Assertable_oro (o : OptRequestedOption) : (Option.oro o).Assertable :=
  ⟨fun _ => ⟨o, rfl⟩, fun h => absurd h (show OptionORO ≠ OptionIANA by decide)⟩

theorem Assertable_iana (o : OptIANA) : (Option.iana o).Assertable :=
  ⟨fun h => absurd h (show OptionIANA ≠ OptionORO by decide), fun _ => ⟨o, rfl⟩⟩

theorem Assertable_of_code (o : Option) (h1 : o.Code ≠ OptionORO) (h2 : o.Code ≠ OptionIANA) :
    o.Assertable :=
  ⟨fun h => absurd h h1, fun h => absurd h h2⟩

/-- A packet that a modifier call returns is the argument itself, or the
argument with an option of the target code written by `UpdateOption`, or, for
a target code that is not a singleton code, appended by `AddOption`. -/
theorem modifier_ok (m : ModifierCall) (p p1 : DHCPv6) (h : m.modifier p = .ok p1) :
    p1 = p ∨
    (∃ o : Option, o.Code = m.target ∧ o.Assertable ∧ p1 = p.UpdateOption o) ∨
    (∃ o : Option, o.Code = m.target ∧ o.Assertable ∧ m.target ∉ singletonCodes ∧
      p1 = p.AddOption o) := by
  cases m with
  | withClientID duid =>
    exact Or.inr (Or.inl ⟨.clientId { Cid := duid }, rfl,
      Assertable_of_code _ (show OptionClientID ≠ OptionORO by decide)
        (show OptionClientID ≠ OptionIANA by decide), (ok_inj h).symm⟩)
  | withServerID duid =>
    exact Or.inr (Or.inl ⟨.serverId { Sid := duid }, rfl,
      Assertable_of_code _ (show OptionServerID ≠ OptionORO by decide)
        (show OptionServerID ≠ OptionIANA by decide), (ok_inj h).symm⟩)
  | withNetboot =>
    rcases WithNetboot_ok p p1 h with h1 | ⟨o, h1⟩
    · exact Or.inl h1
    · exact Or.inr (Or.inl ⟨.oro o, rfl, Assertable_oro o, h1⟩)
  | withUserClass uc =>
    exact Or.inr (Or.inr ⟨.userClass { UserClasses := [uc] }, rfl,
      Assertable_of_code _ (show OptionUserClass ≠ OptionORO by decide)
        (show OptionUserClass ≠ OptionIANA by decide),
      (show OptionUserClass ∉ singletonCodes by decide), (ok_inj h).symm⟩)
  | withArchType a =>
    exact Or.inr (Or.inr ⟨.archType { ArchTypes := [a] }, rfl,
      Assertable_of_code _ (show OptionClientArchType ≠ OptionORO by decide)
        (show OptionClientArchType ≠ OptionIANA by decide),
      (show OptionClientArchType ∉ singletonCodes by decide), (ok_inj h).symm⟩)
  | withIANA addrs =>
    obtain ⟨o, h1⟩ := WithIANA_ok addrs p p1 h
    exact Or.inr (Or.inl ⟨.iana o, rfl, Assertable_iana o, h1⟩)
  | withDNS dnses =>
    exact Or.inr (Or.inl ⟨.dns { NameServers := [] ++ dnses }, rfl,
      Assertable_of_code _ (show OptionDNSRecursiveNameServer ≠ OptionORO by decide)
        (show OptionDNSRecursiveNameServer ≠ OptionIANA by decide), (ok_inj h).symm⟩)
  | withDomainSearchList sl =>
    exact Or.inr (Or.inl ⟨.domainSearchList { DomainSearchList := some { Labels := sl } }, rfl,
      Assertable_of_code _ (show OptionDomainSearchList ≠ OptionORO by decide)
        (show OptionDomainSearchList ≠ OptionIANA by decide), (ok_inj h).symm⟩)
  | withRequestedOptions cs =>
    obtain ⟨o, h1⟩ := WithRequestedOptions_ok cs p p1 h
    exact Or.inr (Or.inl ⟨.oro o, rfl, Assertable_oro o, h1⟩)

/-- A modifier call leaves the options of every code but its target code as
they are. -/
theorem modifier_frame (m : ModifierCall) (p p1 : DHCPv6) (h : m.modifier p = .ok p1)
    (c : OptionCode) (hc : c ≠ m.target) :
    optionsOfCode c p1.options = optionsOfCode c p.options := by
  rcases modifier_ok m p p1 h with h1 | ⟨o, ho, _, h1⟩ | ⟨o, ho, _, _, h1⟩
  · rw [h1]
  · rw [h1]; exact optionsOfCode_UpdateOption_other p o c (ho ▸ hc)
  · rw [h1]; exact optionsOfCode_AddOption_other p o c (ho ▸ hc)

/-- A modifier call keeps the shape of the packet. -/
theorem modifier_isMessage (m : ModifierCall) (p p1 : DHCPv6) (h : m.modifier p = .ok p1) :
    p1.isMessage = p.isMessage := by
  rcases modifier_ok m p p1 h with h1 | ⟨o, _, _, h1⟩ | ⟨o, _, _, _, h1⟩
  · rw [h1]
  · rw [h1]; exact isMessage_setOptions _ _
  · rw [h1]; exact isMessage_setOptions _ _

/-! ## The singleton invariant -/

theorem length_optionsOfCode_updateOption_le (os : List Option) (o : Option) (c : OptionCode)
    (h : (optionsOfCode c os).length ≤ 1) :
    (optionsOfCode c (updateOption os o)).length ≤ 1 := by
  by_cases hc : c = o.Code
  · subst hc
    rw [optionsOfCode_updateOption_single os o h]
    exact Nat.le_refl 1
  · rw [optionsOfCode_updateOption_other os o c hc]
    exact h

theorem mem_updateOption (os : List Option) (o x : Option) (h : x ∈ updateOption os o) :
    x ∈ os ∨ x = o := by
  induction os with
  | nil =>
    simp [updateOption, addOption] at h
    exact Or.inr h
  | cons y ys ih =>
    rw [updateOption] at h
    by_cases hy : y.Code = o.Code
    · simp only [hy, if_true, List.mem_cons] at h
      rcases h with h | h
      · exact Or.inr h
      · exact Or.inl (List.mem_cons_of_mem _ h)
    · simp only [hy, if_false, List.mem_cons] at h
      rcases h with h | h
      · exact Or.inl (h ▸ List.mem_cons_self _ _)
      · rcases ih h with h1 | h1
        · exact Or.inl (List.mem_cons_of_mem _ h1)
        · exact Or.inr h1

theorem getOption_some_mem (os : List Option) (c : OptionCode) (x : Option)
    (h : getOption os c = some x) : x ∈ os ∧ x.Code = c := by
  induction os with
  | nil => simp [getOption] at h
  | cons y ys ih =>
    rw [getOption] at h
    by_cases hy : y.Code = c
    · simp only [hy, if_true] at h
      injection h with h
      subst h
      exact ⟨List.mem_cons_self _ _, hy⟩
    · simp only [hy, if_false] at h
      exact ⟨List.mem_cons_of_mem _ (ih h).1, (ih h).2⟩

/-- A modifier call keeps the singleton invariant. -/
theorem modifier_SingletonInvariant (m : ModifierCall) (p p1 : DHCPv6)
    (hs : SingletonInvariant p.options) (h : m.modifier p = .ok p1) :
    SingletonInvariant p1.options := by
  intro c hc
  rcases modifier_ok m p p1 h with h1 | ⟨o, _, _, h1⟩ | ⟨o, ho, _, hn, h1⟩
  · rw [h1]; exact hs c hc
  · rw [h1, options_UpdateOption]
    exact length_optionsOfCode_updateOption_le p.options o c (hs c hc)
  · have hne : c ≠ o.Code := by
      intro hco
      exact hn (ho ▸ hco ▸ hc)
    rw [h1, optionsOfCode_AddOption_other p o c hne]
    exact hs c hc

/-- A modifier call keeps every option assertable. -/
theorem modifier_Assertable (m : ModifierCall) (p p1 : DHCPv6)
    (hw : ∀ o ∈ p.options, o.Assertable) (h : m.modifier p = .ok p1) :
    ∀ o ∈ p1.options, o.Assertable := by
  intro x hx
  rcases modifier_ok m p p1 h with h1 | ⟨o, _, ha, h1⟩ | ⟨o, _, ha, _, h1⟩
  · rw [h1] at hx; exact hw x hx
  · rw [h1, options_UpdateOption] at hx
    rcases mem_updateOption p.options o x hx with h2 | h2
    · exact hw x h2
    · rw [h2]; exact ha
  · rw [h1, options_AddOption, addOption, List.mem_append, List.mem_singleton] at hx
    rcases hx with h2 | h2
    · exact hw x h2
    · rw [h2]; exact ha

theorem WithRequestedOptions_total (cs : List OptionCode) (p : DHCPv6)
    (hw : ∀ o ∈ p.options, o.Assertable) : ∃ p1, WithRequestedOptions cs p = .ok p1 := by
  cases hg : p.GetOneOption OptionORO with
  | none => exact ⟨_, WithRequestedOptions_get_none cs p hg⟩
  | some x =>
    obtain ⟨hm, hcode⟩ := getOption_some_mem p.options OptionORO x hg
    obtain ⟨y, hy⟩ := (hw x hm).1 hcode
    subst hy
    exact ⟨_, WithRequestedOptions_get_oro cs p y hg⟩

theorem WithIANA_total (addrs : List OptIAAddress) (p : DHCPv6)
    (hw : ∀ o ∈ p.options, o.Assertable) : ∃ p1, WithIANA addrs p = .ok p1 := by
  cases hg : p.GetOneOption OptionIANA with
  | none => exact ⟨_, WithIANA_get_none addrs p hg⟩
  | some x =>
    obtain ⟨hm, hcode⟩ := getOption_some_mem p.options OptionIANA x hg
    obtain ⟨y, hy⟩ := (hw x hm).2 hcode
    subst hy
    exact ⟨_, WithIANA_get_iana addrs p y hg⟩

/-- On a packet whose options are all assertable every modifier call returns a
packet. -/
theorem modifier_total (m : ModifierCall) (p : DHCPv6)
    (hw : ∀ o ∈ p.options, o.Assertable) : ∃ p1, m.modifier p = .ok p1 := by
  cases m with
  | withClientID duid => exact ⟨_, rfl⟩
  | withServerID duid => exact ⟨_, rfl⟩
  | withNetboot =>
    cases p with
    | Relay r => exact ⟨_, rfl⟩
    | Message msg =>
      show ∃ p1, WithNetboot (.Message msg) = .ok p1
      rw [WithNetboot_eq_WithRequestedOptions]
      exact WithRequestedOptions_total _ _ hw
  | withUserClass uc => exact ⟨_, rfl⟩
  | withArchType a => exact ⟨_, rfl⟩
  | withIANA addrs => exact WithIANA_total addrs p hw
  | withDNS dnses => exact ⟨_, rfl⟩
  | withDomainSearchList sl => exact ⟨_, rfl⟩
  | withRequestedOptions cs => exact WithRequestedOptions_total cs p hw

/-- A fold of modifier calls over a packet whose options are all assertable and
satisfy the singleton invariant returns a packet that satisfies it. -/
theorem applyModifiers_SingletonInvariant (ms : List ModifierCall) (p : DHCPv6)
    (hw : ∀ o ∈ p.options, o.Assertable) (hs : SingletonInvariant p.options) :
    ∃ p1, applyModifiers ms p = .ok p1 ∧ SingletonInvariant p1.options := by
  induction ms generalizing p with
  | nil => exact ⟨p, rfl, hs⟩
  | cons m ms ih =>
    obtain ⟨p1, h1⟩ := modifier_total m p hw
    obtain ⟨p2, h2, hs2⟩ := ih p1 (modifier_Assertable m p p1 hw h1)
      (modifier_SingletonInvariant m p p1 hs h1)
    refine ⟨p2, ?_, hs2⟩
    simp only [applyModifiers, Modifier.andThen, h1]
    exact h2

/-- C11: every modifier call keeps the singleton invariant (at most one option
of each of the codes client-id, server-id, IANA, ORO, DNS servers and domain
search list): a packet it returns on a packet that satisfies the invariant
satisfies it; and the fold of any sequence of modifier calls over a packet
with an empty option collection returns a packet that satisfies it. -/
theorem C11_singleton_invariant :
    (∀ (m : ModifierCall) (p p1 : DHCPv6), SingletonInvariant p.options →
      m.modifier p = .ok p1 → SingletonInvariant p1.options) ∧
    (∀ (ms : List ModifierCall) (p : DHCPv6), p.options = [] →
      ∃ p1, applyModifiers ms p = .ok p1 ∧ SingletonInvariant p1.options) := by
  refine ⟨modifier_SingletonInvariant, ?_⟩
  intro ms p hp
  apply applyModifiers_SingletonInvariant ms p
  · intro o ho
    rw [hp] at ho
    cases ho
  · rw [hp]
    intro c _
    exact Nat.zero_le 1

/-- C11 at a message holding one client identifier, one requested-option list
and one server identifier, with `WithRequestedOptions [59]`, and at the fold
of a sequence that uses every modifier over an empty message. -/
theorem C11_singleton_invariant_witness :
    SingletonInvariant threeOptionMessage.options ∧
    SingletonInvariant
      (threeOptionMessage.UpdateOption (.oro { requestedOptions := [23] ++ [59] })).options ∧
    ∃ p1, applyModifiers exampleCalls emptyMessage = .ok p1 ∧
      SingletonInvariant p1.options :=
  ⟨by decide,
   C11_singleton_invariant.1 (.withRequestedOptions [59]) threeOptionMessage _ (by decide) rfl,
   C11_singleton_invariant.2 exampleCalls emptyMessage rfl⟩

/-! ## Idempotence -/

theorem UpdateOption_idem (p : DHCPv6) (o : Option) :
    (p.UpdateOption o).UpdateOption o = p.UpdateOption o := by
  apply UpdateOption_first_self
  rw [DHCPv6.GetOneOption, options_UpdateOption]
  exact getOption_updateOption_same p.options o

theorem GetOneOption_UpdateOption_same (p : DHCPv6) (o : Option) :
    (p.UpdateOption o).GetOneOption o.Code = some o := by
  rw [DHCPv6.GetOneOption, options_UpdateOption]
  exact getOption_updateOption_same p.options o

/-- C16: on every packet, applying `WithClientID d`, `WithServerID d`,
`WithDNS ds` or `WithDomainSearchList s` twice gives the packet that applying
it once gives; and for a non-empty code list `cs`, whenever
`WithRequestedOptions cs` returns a packet `p1`, it returns on `p1` a packet
`p2` whose requested-option list is strictly longer than the one of `p1`, so
the option collections of `p2` and `p1` differ. -/
theorem C16_idempotence (p : DHCPv6) :
    (∀ d, (WithClientID d).andThen (WithClientID d) p = WithClientID d p) ∧
    (∀ d, (WithServerID d).andThen (WithServerID d) p = WithServerID d p) ∧
    (∀ ds, (WithDNS ds).andThen (WithDNS ds) p = WithDNS ds p) ∧
    (∀ s, (WithDomainSearchList s).andThen (WithDomainSearchList s) p =
      WithDomainSearchList s p) ∧
    (∀ cs p1, cs ≠ [] → WithRequestedOptions cs p = .ok p1 →
      ∃ p2 o1 o2, WithRequestedOptions cs p1 = .ok p2 ∧
        p1.GetOneOption OptionORO = some (.oro o1) ∧
        p2.GetOneOption OptionORO = some (.oro o2) ∧
        o1.requestedOptions.length < o2.requestedOptions.length ∧
        p2.options ≠ p1.options) := by
  refine ⟨?_, ?_, ?_, ?_, ?_⟩
  · intro d
    exact congrArg Except.ok (UpdateOption_idem p (.clientId { Cid := d }))
  · intro d
    exact congrArg Except.ok (UpdateOption_idem p (.serverId { Sid := d }))
  · intro ds
    exact congrArg Except.ok (UpdateOption_idem p (.dns { NameServers := [] ++ ds }))
  · intro s
    exact congrArg Except.ok
      (UpdateOption_idem p (.domainSearchList { DomainSearchList := some { Labels := s } }))
  · intro cs p1 hcs h
    obtain ⟨o1, h1⟩ := WithRequestedOptions_ok cs p p1 h
    have hg1 : p1.GetOneOption OptionORO = some (.oro o1) := by
      rw [h1]; exact GetOneOption_UpdateOption_same p (.oro o1)
    have hg2 : (p1.UpdateOption (.oro { requestedOptions := o1.requestedOptions ++ cs })).GetOneOption
        OptionORO = some (.oro { requestedOptions := o1.requestedOptions ++ cs }) :=
      GetOneOption_UpdateOption_same p1 (.oro _)
    have hlen : o1.requestedOptions.length < (o1.requestedOptions ++ cs).length := by
      rw [List.length_append]
      have : 0 < cs.length := List.length_pos.2 hcs
      omega
    refine ⟨_, o1, _, WithRequestedOptions_get_oro cs p1 o1 hg1, hg1, hg2, hlen, ?_⟩
    intro heq
    have hg : (p1.UpdateOption (.oro { requestedOptions := o1.requestedOptions ++ cs })).GetOneOption
        OptionORO = p1.GetOneOption OptionORO := by
      rw [DHCPv6.GetOneOption, DHCPv6.GetOneOption, heq]
    rw [hg1, hg2] at hg
    injection hg with hg
    injection hg with hg
    have hl : (o1.requestedOptions ++ cs).length = o1.requestedOptions.length :=
      congrArg (fun x : OptRequestedOption => x.requestedOptions.length) hg
    omega

/-- C16 at an empty message: `WithRequestedOptions [59]` twice gives a list
strictly longer than once. -/
theorem C16_idempotence_witness :
    ∃ p2 o1 o2, WithRequestedOptions [59]
        (emptyMessage.UpdateOption (.oro { requestedOptions := [59] })) = .ok p2 ∧
      (emptyMessage.UpdateOption (.oro { requestedOptions := [59] })).GetOneOption OptionORO =
        some (.oro o1) ∧
      p2.GetOneOption OptionORO = some (.oro o2) ∧
      o1.requestedOptions.length < o2.requestedOptions.length ∧
      p2.options ≠ (emptyMessage.UpdateOption (.oro { requestedOptions := [59] })).options :=
  (C16_idempotence emptyMessage).2.2.2.2 [59] _ (by decide) rfl

/-! ## Modifiers of different target codes -/

theorem resultOptionsOfCode_ok (c : OptionCode) (r : Except Fault DHCPv6) (l : List Option)
    (h : resultOptionsOfCode c r = .ok l) : ∃ d, r = .ok d ∧ optionsOfCode c d.options = l := by
  cases r with
  | error e => cases h
  | ok d => exact ⟨d, rfl, ok_inj h⟩

theorem resultOptionsOfCode_error (c : OptionCode) (r : Except Fault DHCPv6) (e : Fault)
    (h : resultOptionsOfCode c r = .error e) : r = .error e := by
  cases r with
  | error e2 =>
    have h2 : (Except.error e2 : Except Fault (List Option)) = .error e := h
    injection h2 with h3
    rw [h3]
  | ok d => cases h

theorem optionsOfCode_UpdateOption_congr (o : Option) (p q : DHCPv6)
    (h : optionsOfCode o.Code p.options = optionsOfCode o.Code q.options) :
    optionsOfCode o.Code (p.UpdateOption o).options =
      optionsOfCode o.Code (q.UpdateOption o).options := by
  rw [options_UpdateOption, options_UpdateOption, optionsOfCode_updateOption_same,
    optionsOfCode_updateOption_same, h]

theorem optionsOfCode_AddOption_congr (o : Option) (p q : DHCPv6)
    (h : optionsOfCode o.Code p.options = optionsOfCode o.Code q.options) :
    optionsOfCode o.Code (p.AddOption o).options =
      optionsOfCode o.Code (q.AddOption o).options := by
  rw [options_AddOption, options_AddOption, optionsOfCode_addOption, optionsOfCode_addOption, h]

theorem WithRequestedOptions_target_congr (cs : List OptionCode) (p q : DHCPv6)
    (h : optionsOfCode OptionORO p.options = optionsOfCode OptionORO q.options) :
    resultOptionsOfCode OptionORO (WithRequestedOptions cs p) =
      resultOptionsOfCode OptionORO (WithRequestedOptions cs q) := by
  have hg : p.GetOneOption OptionORO = q.GetOneOption OptionORO := by
    rw [DHCPv6.GetOneOption, DHCPv6.GetOneOption, getOption_eq_head?, getOption_eq_head?, h]
  cases hp : p.GetOneOption OptionORO with
  | none =>
    rw [WithRequestedOptions_get_none cs p hp, WithRequestedOptions_get_none cs q (hg ▸ hp)]
    exact congrArg Except.ok (optionsOfCode_UpdateOption_congr (.oro _) p q h)
  | some x =>
    have hq : q.GetOneOption OptionORO = some x := hg ▸ hp
    cases x <;>
      first
        | (rw [WithRequestedOptions_get_oro cs p _ hp, WithRequestedOptions_get_oro cs q _ hq]
           exact congrArg Except.ok (optionsOfCode_UpdateOption_congr (.oro _) p q h))
        | simp only [WithRequestedOptions, hp, hq, Option.assertOptRequestedOption]

theorem WithIANA_target_congr (addrs : List OptIAAddress) (p q : DHCPv6)
    (h : optionsOfCode OptionIANA p.options = optionsOfCode OptionIANA q.options) :
    resultOptionsOfCode OptionIANA (WithIANA addrs p) =
      resultOptionsOfCode OptionIANA (WithIANA addrs q) := by
  have hg : p.GetOneOption OptionIANA = q.GetOneOption OptionIANA := by
    rw [DHCPv6.GetOneOption, DHCPv6.GetOneOption, getOption_eq_head?, getOption_eq_head?, h]
  cases hp : p.GetOneOption OptionIANA with
  | none =>
    rw [WithIANA_get_none addrs p hp, WithIANA_get_none addrs q (hg ▸ hp)]
    exact congrArg Except.ok (optionsOfCode_UpdateOption_congr (.iana _) p q h)
  | some x =>
    have hq : q.GetOneOption OptionIANA = some x := hg ▸ hp
    cases x <;>
      first
        | (rw [WithIANA_get_iana addrs p _ hp, WithIANA_get_iana addrs q _ hq]
           exact congrArg Except.ok (optionsOfCode_UpdateOption_congr (.iana _) p q h))
        | simp only [WithIANA, hp, hq, Option.assertOptIANA]

/-- Whether a modifier call faults, and the options of its target code in the
packet it returns, depend only on the shape of the argument and on its
options of the target code. -/
theorem modifier_target_congr (m : ModifierCall) (p q : DHCPv6)
    (hs : p.isMessage = q.isMessage)
    (h : optionsOfCode m.target p.options = optionsOfCode m.target q.options) :
    resultOptionsOfCode m.target (m.modifier p) =
      resultOptionsOfCode m.target (m.modifier q) := by
  cases m with
  | withClientID duid =>
    exact congrArg Except.ok (optionsOfCode_UpdateOption_congr (.clientId _) p q h)
  | withServerID duid =>
    exact congrArg Except.ok (optionsOfCode_UpdateOption_congr (.serverId _) p q h)
  | withNetboot =>
    cases p with
    | Relay r =>
      cases q with
      | Relay r2 => exact congrArg Except.ok h
      | Message m2 => cases hs
    | Message m1 =>
      cases q with
      | Relay r2 => cases hs
      | Message m2 =>
        show resultOptionsOfCode OptionORO (WithNetboot (.Message m1)) =
          resultOptionsOfCode OptionORO (WithNetboot (.Message m2))
        rw [WithNetboot_eq_WithRequestedOptions, WithNetboot_eq_WithRequestedOptions]
        exact WithRequestedOptions_target_congr _ _ _ h
  | withUserClass uc =>
    exact congrArg Except.ok (optionsOfCode_AddOption_congr (.userClass _) p q h)
  | withArchType a =>
    exact congrArg Except.ok (optionsOfCode_AddOption_congr (.archType _) p q h)
  | withIANA addrs => exact WithIANA_target_congr addrs p q h
  | withDNS dnses =>
    exact congrArg Except.ok (optionsOfCode_UpdateOption_congr (.dns _) p q h)
  | withDomainSearchList sl =>
    exact congrArg Except.ok (optionsOfCode_UpdateOption_congr (.domainSearchList _) p q h)
  | withRequestedOptions cs => exact WithRequestedOptions_target_congr cs p q h

/-- On a packet returned by a call of another target code, a modifier call
faults exactly when it faults on the original packet, and otherwise writes the
same options of its target code. -/
theorem modifier_after_other (m1 m2 : ModifierCall) (ht : m1.target ≠ m2.target)
    (p p2 : DHCPv6) (h2 : m2.modifier p = .ok p2) :
    resultOptionsOfCode m1.target (m1.modifier p2) =
      resultOptionsOfCode m1.target (m1.modifier p) :=
  modifier_target_congr m1 p2 p (modifier_isMessage m2 p p2 h2)
    (modifier_frame m2 p p2 h2 m1.target ht)

theorem commute_resultOptionsOfCode (m1 m2 : ModifierCall) (ht : m1.target ≠ m2.target)
    (p : DHCPv6) (c : OptionCode) :
    resultOptionsOfCode c (m2.modifier.andThen m1.modifier p) =
      resultOptionsOfCode c (m1.modifier.andThen m2.modifier p) := by
  cases h1 : m1.modifier p with
  | error e1 =>
    cases h2 : m2.modifier p with
    | error e2 =>
      cases e1; cases e2
      simp only [Modifier.andThen, h1, h2]
    | ok p2 =>
      have k := modifier_after_other m1 m2 ht p p2 h2
      rw [h1] at k
      have k2 := resultOptionsOfCode_error _ _ _ k
      simp only [Modifier.andThen, h1, h2, k2]
  | ok p1 =>
    cases h2 : m2.modifier p with
    | error e2 =>
      have k := modifier_after_other m2 m1 (Ne.symm ht) p p1 h1
      rw [h2] at k
      have k2 := resultOptionsOfCode_error _ _ _ k
      simp only [Modifier.andThen, h1, h2, k2]
    | ok p2 =>
      have k12 := modifier_after_other m1 m2 ht p p2 h2
      rw [h1] at k12
      obtain ⟨p21, h21, e21⟩ := resultOptionsOfCode_ok _ _ _ k12
      have k21 := modifier_after_other m2 m1 (Ne.symm ht) p p1 h1
      rw [h2] at k21
      obtain ⟨p12, h12, e12⟩ := resultOptionsOfCode_ok _ _ _ k21
      simp only [Modifier.andThen, h1, h2, h21, h12, resultOptionsOfCode]
      congr 1
      by_cases hc1 : c = m1.target
      · subst hc1
        rw [e21, modifier_frame m2 p1 p12 h12 m1.target ht]
      · by_cases hc2 : c = m2.target
        · subst hc2
          rw [e12, modifier_frame m1 p2 p21 h21 m2.target (Ne.symm ht)]
        · rw [modifier_frame m1 p2 p21 h21 c hc1, modifier_frame m2 p p2 h2 c hc2,
            modifier_frame m2 p1 p12 h12 c hc2, modifier_frame m1 p p1 h1 c hc1]

/-- C14: for two modifier calls `m1`, `m2` with different target codes, every
packet `p` and every code `c`, applying `m2` then `m1` and applying `m1` then
`m2` both fault or both return a packet, and the two packets hold the same
sequence of options of code `c`; hence `GetOneOption` gives the same answer on
both for `c`. -/
theorem C14_different_targets_commute (m1 m2 : ModifierCall) (ht : m1.target ≠ m2.target)
    (p : DHCPv6) (c : OptionCode) :
    resultOptionsOfCode c (m2.modifier.andThen m1.modifier p) =
        resultOptionsOfCode c (m1.modifier.andThen m2.modifier p) ∧
      ∀ d1 d2, m2.modifier.andThen m1.modifier p = .ok d1 →
        m1.modifier.andThen m2.modifier p = .ok d2 →
        d1.GetOneOption c = d2.GetOneOption c := by
  have hc := commute_resultOptionsOfCode m1 m2 ht p c
  refine ⟨hc, ?_⟩
  intro d1 d2 h1 h2
  rw [h1, h2] at hc
  rw [DHCPv6.GetOneOption, DHCPv6.GetOneOption, getOption_eq_head?, getOption_eq_head?,
    ok_inj hc]

/-- C14 at `WithClientID` and `WithRequestedOptions` on a message holding a
client identifier, a requested-option list and a server identifier, for the
ORO code. -/
theorem C14_different_targets_commute_witness :
    resultOptionsOfCode OptionORO
        ((ModifierCall.withRequestedOptions [59]).modifier.andThen
          (ModifierCall.withClientID [0, 9]).modifier threeOptionMessage) =
      resultOptionsOfCode OptionORO
        ((ModifierCall.withClientID [0, 9]).modifier.andThen
          (ModifierCall.withRequestedOptions [59]).modifier threeOptionMessage) ∧
      ∀ d1 d2, (ModifierCall.withRequestedOptions [59]).modifier.andThen
          (ModifierCall.withClientID [0, 9]).modifier threeOptionMessage = .ok d1 →
        (ModifierCall.withClientID [0, 9]).modifier.andThen
          (ModifierCall.withRequestedOptions [59]).modifier threeOptionMessage = .ok d2 →
        d1.GetOneOption OptionORO = d2.GetOneOption OptionORO :=
  C14_different_targets_commute (.withClientID [0, 9]) (.withRequestedOptions [59])
    (by decide) threeOptionMessage OptionORO

end dhcpv6
